import Mathlib

/-!
# go-blackjack: a verification development

A shallow embedding of `main.go` (single-deck, no-split Blackjack) and theorems about it.

Modelling conventions.

* Go `int` counters and scores are `Int`/`Nat`; no value in this program comes near the
  64-bit range (a hand holds at most 52 cards), so no wrap-around is modelled.
* `Player.Wallet` is a `float64` in the source. It is modelled by an exact rational, and
  `int64(w)` by truncation. The two agree with the source where every operand and result
  is a multiple of 1/2 of magnitude at most 2^52 (`ExactWallet`, `Player.InRange`): IEEE
  operations are correctly rounded, so they return an exact result that is representable.
  Every wallet the program can hold is in that range (wallets start at 1000, a round
  multiplies a wallet by at most 2.5, and the 52-card deck, which is never refilled, allows at
  most 13 rounds). The theorems on the amounts paid (C2, C3) and on the accepted bid (C10)
  carry the range as a hypothesis.
* Console input is a list with one entry per call of `fmt.Scanln`; when the list is
  exhausted `Scanln` fails and the source panics. `Player.Bid` takes the entries as the lines
  typed and passes each through `Scanln`: a line that is empty or holds several words makes
  `Scanln` fail and the source panics. For `Player.Action` and `Game.Continue` an entry is
  the token `Scanln` delivered.
* A Go `panic` is the `Except.error` result. Printing is not modelled.
* `math/rand` is a function `rnd : Nat → Nat`: `rnd k` is the raw outcome behind the
  `k`-th call of `rand.Intn` inside one `Shuffle`.
-/

namespace Blackjack

/-! ## 1. Types and constants -/

/-- Action represents the actions a player can take. -/
inductive Action where
  | HIT
  | STAND
deriving DecidableEq

/-- The constant `SCORE_LIMIT` of the source. -/
def SCORE_LIMIT : Int := 21

/-- Possible ranks of the cards. -/
def ranks : List String := ["A", "2", "3", "4", "5", "6", "7", "8", "9", "10", "J", "Q", "K"]

/-- Possible suits of the cards. -/
def suits : List String := ["Hearts", "Spades", "Diamonds", "Clubs"]

/-- Card is made of a Rank and a Suit. -/
structure Card where
  Rank : String
  Suit : String
deriving DecidableEq

/-- Deck struct represents a collection of cards. -/
structure Deck where
  Cards : List Card
deriving DecidableEq

/-- Player struct: hand, bet (`int64`) and wallet (`float64`, see the header). -/
structure Player where
  Hand : List Card
  Bet : Int
  Wallet : ℚ
deriving DecidableEq

/-- Game struct holds the deck, the dealer and the players. -/
structure Game where
  Deck : Deck
  Dealer : Player
  Players : List Player
deriving DecidableEq

/-! ## 2. Card -/

/-- `Card.Score`: the score of a card based on its rank. -/
def Card.Score (c : Card) : Int :=
  if c.Rank = "A" then 11
  else if c.Rank = "2" then 2
  else if c.Rank = "3" then 3
  else if c.Rank = "4" then 4
  else if c.Rank = "5" then 5
  else if c.Rank = "6" then 6
  else if c.Rank = "7" then 7
  else if c.Rank = "8" then 8
  else if c.Rank = "9" then 9
  else 10

/-! ## 3. Deck -/

/-- `Deck.Draw`: removes a card from the top of the deck. The result is the returned
`(*Card, error)` pair together with the deck afterwards. -/
def Deck.Draw (d : Deck) : Except String Card × Deck :=
  match d.Cards with
  | [] => (.error "Deck is empty", d)
  | card :: rest => (.ok card, { d with Cards := rest })

/-- `Deck.Initialize`: `d.Cards = nil`, then one `append` per suit (outer loop) and rank
(inner loop). -/
def Deck.Initialize (_d : Deck) : Deck :=
  { Cards := suits.foldl
      (fun cards suit => ranks.foldl (fun cards rank => cards ++ [{ Suit := suit, Rank := rank }]) cards)
      [] }

/-- `rand.Intn(n)`: panics for `n ≤ 0`, otherwise returns a value of `[0, n)`; `raw` is the
outcome of the random source behind this call. -/
def Intn (raw : Nat) (n : Int) : Except String Int :=
  if n ≤ 0 then .error "invalid argument to Intn" else .ok ((raw : Int) % n)

/-- Read of `cards[i]` with Go's bounds check. -/
def index (cards : List Card) (i : Int) : Except String Card :=
  if i < 0 then .error "index out of range"
  else match cards[i.toNat]? with
    | some c => .ok c
    | none => .error "index out of range"

/-- Write `cards[i] = c` with Go's bounds check. -/
def assign (cards : List Card) (i : Int) (c : Card) : Except String (List Card) :=
  if i < 0 ∨ (cards.length : Int) ≤ i then .error "index out of range"
  else .ok (cards.set i.toNat c)

/-- The index `randIdx` computed in iteration `idx` of `Deck.Shuffle`. -/
def Deck.randIdx (rnd : Nat → Nat) (maxIdx : Int) (idx : Nat) : Except String Int := do
  let r ← Intn (rnd idx) (maxIdx - idx)
  pure (r + idx + 1)

/-- Body of the loop of `Deck.Shuffle` at `idx`. -/
def Deck.shuffleStep (rnd : Nat → Nat) (maxIdx : Int) (cards : List Card) (idx : Nat) :
    Except String (List Card) := do
  let currCard ← index cards idx
  let randIdx ← Deck.randIdx rnd maxIdx idx
  let other ← index cards randIdx
  let cards ← assign cards idx other
  assign cards randIdx currCard

/-- `Deck.Shuffle`: `for idx := 0; idx < maxIdx; idx++` with `maxIdx = len - 1`. -/
def Deck.Shuffle (rnd : Nat → Nat) (d : Deck) : Except String Deck := do
  let maxIdx : Int := (d.Cards.length : Int) - 1
  let cards ← (List.range maxIdx.toNat).foldlM (Deck.shuffleStep rnd maxIdx) d.Cards
  pure { d with Cards := cards }

/-! ## 4. Player -/

/-- The token families of `Player.Action`. -/
def actionOfToken (prompt : String) : Option Action :=
  if prompt ∈ ["h", "H", "hit", "Hit", "HIT"] then some .HIT
  else if prompt ∈ ["s", "S", "stand", "Stand", "STAND"] then some .STAND
  else none

/-- `Player.Action`: asks until a token of one of the two families arrives. -/
def Player.Action (p : Player) : List String → Except String (Action × List String)
  | [] => .error "Scanln failed"
  | prompt :: rest =>
    match actionOfToken prompt with
    | some a => .ok (a, rest)
    | none => Player.Action p rest

/-- `Player.Add`: adds a new card to the hand. -/
def Player.Add (p : Player) (card : Card) : Player :=
  { p with Hand := p.Hand ++ [card] }

/-- `Player.Balance`: `p.Wallet += earnings` (the flag only selects the printed text). -/
def Player.Balance (p : Player) (earnings : ℚ) (_isPush : Bool) : Player :=
  { p with Wallet := p.Wallet + earnings }

/-- Value of a decimal digit. -/
def digitVal (c : Char) : Option Nat :=
  if '0' ≤ c ∧ c ≤ '9' then some (c.toNat - '0'.toNat) else none

/-- Digit loop of `strconv.ParseUint` in base 10. -/
def parseUintLoop : List Char → Nat → Option Nat
  | [], n => some n
  | c :: cs, n =>
    match digitVal c with
    | some v => parseUintLoop cs (n * 10 + v)
    | none => none

/-- `strconv.ParseInt(s, 10, 64)` of the Go standard library: an optional sign, then one or
more decimal digits, and the value must fit in `int64`; `none` is a non-nil error. -/
def ParseInt (s : String) : Option Int :=
  match s.data with
  | [] => none
  | c :: cs =>
    let neg := decide (c = '-')
    let body := if c = '+' ∨ c = '-' then cs else c :: cs
    match body with
    | [] => none
    | _ :: _ =>
      match parseUintLoop body 0 with
      | none => none
      | some un =>
        if !neg ∧ un ≥ 2 ^ 63 then none
        else if neg ∧ un > 2 ^ 63 then none
        else some (if neg then -(un : Int) else (un : Int))

/-- The conversion `int64(w)` of a `float64`: truncation toward zero. Go leaves the result
unspecified when the truncated value does not fit in 64 bits; the theorems that depend on the
conversion restrict the wallet to `ExactWallet`, where it fits. -/
def int64 (w : ℚ) : Int := Int.tdiv w.num w.den

/-- The space characters of package `fmt`; a line is given without its terminating
newline. -/
def isSpace (c : Char) : Bool :=
  decide ((0x09 ≤ c.toNat ∧ c.toNat ≤ 0x0d) ∨ c.toNat = 0x20 ∨ c.toNat = 0x85 ∨ c.toNat = 0xa0 ∨
    c.toNat = 0x1680 ∨ (0x2000 ≤ c.toNat ∧ c.toNat ≤ 0x200a) ∨ c.toNat = 0x2028 ∨
    c.toNat = 0x2029 ∨ c.toNat = 0x202f ∨ c.toNat = 0x205f ∨ c.toNat = 0x3000)

/-- `fmt.Scanln(&prompt)` of the Go standard library on one line, for a single string
operand: leading spaces are skipped, the word up to the next space is read, and only spaces
may follow. `none` is a non-nil error: the line holds no word (unexpected newline) or more
than one (expected newline). -/
def Scanln (line : String) : Option String :=
  let afterSpaces := line.data.dropWhile isSpace
  let word := afterSpaces.takeWhile (fun c => !isSpace c)
  let tail := (afterSpaces.dropWhile (fun c => !isSpace c)).dropWhile isSpace
  if word = [] then none
  else if tail = [] then some (String.mk word)
  else none

/-- `Player.Bid`: asks until a valid amount arrives, then sets the bet and takes it out
of the wallet; a failed `Scanln` (no more input, or a line that is not one word) panics. -/
def Player.Bid (p : Player) : List String → Except String (Player × List String)
  | [] => .error "Scanln failed"
  | line :: rest =>
    match Scanln line with
    | none => .error "Scanln failed"
    | some prompt =>
      match ParseInt prompt with
      | some amount =>
        if amount > 0 ∧ amount ≤ int64 p.Wallet then
          .ok ({ p with Bet := amount, Wallet := p.Wallet - (amount : ℚ) }, rest)
        else Player.Bid p rest
      | none => Player.Bid p rest

/-- Loop of `Player.InitialHand`; `n` is the number of iterations left. -/
def Player.initialHandLoop : Nat → Player → Deck → Option String × Player × Deck
  | 0, p, d => (none, p, d)
  | n + 1, p, d =>
    match d.Draw with
    | (.error err, d1) => (some err, p, d1)
    | (.ok card, d1) => Player.initialHandLoop n (p.Add card) d1

/-- `Player.InitialHand`: the returned error (`none` is `nil`), the player and the deck
afterwards. -/
def Player.InitialHand (p : Player) (d : Deck) (numberOfCards : Int) :
    Option String × Player × Deck :=
  Player.initialHandLoop numberOfCards.toNat { p with Hand := [] } d

/-- First loop of `Player.Score`: accumulates `score` and `aces` over the hand. -/
def Player.scoreLoop : List Card → Int → Nat → Int × Nat
  | [], score, aces => (score, aces)
  | c :: rest, score, aces =>
    Player.scoreLoop rest (score + c.Score) (if c.Rank = "A" then aces + 1 else aces)

/-- Second loop of `Player.Score`: `for score > SCORE_LIMIT && aces > 0`. -/
def Player.aceLoop : Int → Nat → Int
  | score, 0 => score
  | score, aces + 1 => if score > SCORE_LIMIT then Player.aceLoop (score - 10) aces else score

/-- `Player.Score`: scores the hand total of a player. -/
def Player.Score (p : Player) : Int :=
  let (score, aces) := Player.scoreLoop p.Hand 0 0
  Player.aceLoop score aces

/-- `Player.IsBlackjack`: checks if the hand is a Blackjack. -/
def Player.IsBlackjack (p : Player) : Bool :=
  decide (p.Score = 21 ∧ p.Hand.length = 2)

/-! ## 5. Game -/

/-- The four outcomes of `Game.Payout` for one player, in source order. -/
inductive PayoutBranch where
  | blackjack
  | win
  | lose
  | push
deriving DecidableEq

/-- Body of the loop of `Game.Payout` for one player: the branch taken and the player
afterwards. -/
def Game.payoutPlayer (dealer player : Player) : PayoutBranch × Player :=
  let dScore := dealer.Score
  let pBet : ℚ := (player.Bet : ℚ)
  if player.IsBlackjack && !dealer.IsBlackjack then
    (.blackjack, player.Balance (pBet * 2.5) false)
  else
    let pScore := player.Score
    if pScore ≤ SCORE_LIMIT ∧ (dScore > SCORE_LIMIT ∨ pScore > dScore) then
      (.win, player.Balance (pBet * 2) false)
    else if (pScore > SCORE_LIMIT ∧ dScore ≤ SCORE_LIMIT) ∨
        (pScore ≤ SCORE_LIMIT ∧ pScore < dScore) then
      (.lose, player)
    else
      (.push, player.Balance pBet true)

/-- `Game.Payout`: distributes the cash to each player when the round is over. -/
def Game.Payout (g : Game) : Game :=
  { g with Players := g.Players.map (fun player => (Game.payoutPlayer g.Dealer player).2) }

/-- Dealer loop of `Game.Round`: stands for any score greater than 16, draws otherwise. -/
def Game.dealerLoop (dealer : Player) : List Card → Except String (Player × Blackjack.Deck)
  | [] => if dealer.Score > 16 then .ok (dealer, { Cards := [] }) else .error "Deck is empty"
  | card :: rest =>
    if dealer.Score > 16 then .ok (dealer, { Cards := card :: rest })
    else Game.dealerLoop (dealer.Add card) rest

/-- Player loop of `Game.Round`; the recursion is on the deck, since every iteration that
does not end the turn draws a card. -/
def Game.playerLoop (currPlayer : Player) :
    List Card → List String → Except String (Player × Blackjack.Deck × List String)
  | [], inputs =>
    match currPlayer.Action inputs with
    | .error err => .error err
    | .ok (.HIT, _) => .error "Deck is empty"
    | .ok (.STAND, rest) => .ok (currPlayer, { Cards := [] }, rest)
  | card :: cards, inputs =>
    match currPlayer.Action inputs with
    | .error err => .error err
    | .ok (.HIT, rest) =>
      if (currPlayer.Add card).Score > SCORE_LIMIT then
        .ok (currPlayer.Add card, { Cards := cards }, rest)
      else Game.playerLoop (currPlayer.Add card) cards rest
    | .ok (.STAND, rest) => .ok (currPlayer, { Cards := card :: cards }, rest)

/-- `Game.Round`: the turn of the dealer (`playerIdx < 0`) or of one player. The read of
`g.Dealer.Hand[1]` for `ShowTable` happens in every iteration of the player loop; the
dealer's hand does not change there, so it is checked once. -/
def Game.Round (g : Game) (playerIdx : Int) (inputs : List String) :
    Except String (Game × List String) :=
  if playerIdx < 0 then
    match Game.dealerLoop g.Dealer g.Deck.Cards with
    | .error err => .error err
    | .ok (dealer, deck) => .ok ({ g with Dealer := dealer, Deck := deck }, inputs)
  else
    match g.Players[playerIdx.toNat]?, g.Dealer.Hand[1]? with
    | some currPlayer, some _ =>
      match Game.playerLoop currPlayer g.Deck.Cards inputs with
      | .error err => .error err
      | .ok (player, deck, rest) =>
        .ok ({ g with Players := g.Players.set playerIdx.toNat player, Deck := deck }, rest)
    | _, _ => .error "index out of range"

/-! ## 6. Specification-side definitions -/

/-- Face value of a rank other than the Ace, in the words of the specification: the number
for 2 to 10, and 10 for J, Q and K. -/
def faceValue (rank : String) : Int :=
  if rank = "2" then 2
  else if rank = "3" then 3
  else if rank = "4" then 4
  else if rank = "5" then 5
  else if rank = "6" then 6
  else if rank = "7" then 7
  else if rank = "8" then 8
  else if rank = "9" then 9
  else if rank = "10" then 10
  else if rank = "J" then 10
  else if rank = "Q" then 10
  else if rank = "K" then 10
  else 0

/-- Every total of a hand: one entry per way of counting each Ace as 1 or as 11, the other
cards at face value. -/
def handTotals : List Card → List Int
  | [] => [0]
  | c :: rest =>
    if c.Rank = "A" then (handTotals rest).map (· + 1) ++ (handTotals rest).map (· + 11)
    else (handTotals rest).map (· + faceValue c.Rank)

/-- The total of a hand with every Ace counted as 1. -/
def hardTotal : List Card → Int
  | [] => 0
  | c :: rest => (if c.Rank = "A" then 1 else faceValue c.Rank) + hardTotal rest

/-- Number of Aces of a hand. -/
def aceCount : List Card → Nat
  | [] => 0
  | c :: rest => (if c.Rank = "A" then 1 else 0) + aceCount rest

/-- The four cases of the payout table, each with the cases above it excluded; the last one
is written out: both over 21, or equal scores of at most 21 that are not a player blackjack
against a dealer without one. -/
def branchCase (dealer player : Player) : PayoutBranch → Prop
  | .blackjack => player.IsBlackjack = true ∧ dealer.IsBlackjack = false
  | .win =>
    ¬ (player.IsBlackjack = true ∧ dealer.IsBlackjack = false) ∧
      player.Score ≤ 21 ∧ (dealer.Score > 21 ∨ player.Score > dealer.Score)
  | .lose =>
    ¬ (player.IsBlackjack = true ∧ dealer.IsBlackjack = false) ∧
      ¬ (player.Score ≤ 21 ∧ (dealer.Score > 21 ∨ player.Score > dealer.Score)) ∧
      ((player.Score > 21 ∧ dealer.Score ≤ 21) ∨
        (player.Score ≤ 21 ∧ player.Score < dealer.Score))
  | .push =>
    (player.Score > 21 ∧ dealer.Score > 21) ∨
      (player.Score = dealer.Score ∧ player.Score ≤ 21 ∧
        ¬ (player.IsBlackjack = true ∧ dealer.IsBlackjack = false))

/-- A wallet amount on which the `float64` and `int64` operations of the source are exact:
a multiple of 1/2 between 0 and 2^51. -/
def ExactWallet (w : ℚ) : Prop := ∃ m : Int, 0 ≤ m ∧ m ≤ 2 ^ 52 ∧ w = (m : ℚ) / 2

/-- A value that a `float64` holds exactly: a multiple of 1/2 of magnitude at most 2^52, that
is, half of an integer of at most 53 bits. -/
def Float64Exact (x : ℚ) : Prop := ∃ m : Int, -(2 ^ 53) ≤ m ∧ m ≤ 2 ^ 53 ∧ x = (m : ℚ) / 2

/-- A player whose bet and wallet are in the range where the `float64` arithmetic of the
payout is exact: 0 <= Bet <= 2^49 and an `ExactWallet`. Then `float64(Bet)`, `pBet*2.5`,
`pBet*2` and the wallet after `Balance` are all `Float64Exact`. -/
def Player.InRange (p : Player) : Prop := 0 ≤ p.Bet ∧ p.Bet ≤ 2 ^ 49 ∧ ExactWallet p.Wallet

/-- A hand of the given ranks (all Hearts) with bet 100 and wallet 900. -/
def handOf (rs : List String) : Player :=
  { Hand := rs.map (fun r => { Rank := r, Suit := "Hearts" }), Bet := 100, Wallet := 900 }

/-- A table whose dealer holds {10,6} over a two-card deck, no players. -/
def dealerTable : Game :=
  { Deck := { Cards := [{ Rank := "5", Suit := "Clubs" }, { Rank := "9", Suit := "Diamonds" }] },
    Dealer := handOf ["10", "6"], Players := [] }

/-- A deck of two different cards. -/
def twoCards : Deck :=
  { Cards := [{ Rank := "A", Suit := "Hearts" }, { Rank := "K", Suit := "Spades" }] }

/-- A table with the given dealer hand and one player, deck empty. -/
def tableOf (dealer player : List String) : Game :=
  { Deck := { Cards := [] }, Dealer := handOf dealer, Players := [handOf player] }

/-- The letters of a token in lower case: two tokens are equal ignoring letter case when
their images agree. -/
def lowerOf (s : String) : List Char := s.data.map Char.toLower

/-- A table for a player turn: two players, the dealer showing {10,8}, three cards left. -/
def playerTable : Game :=
  { Deck := { Cards := [{ Rank := "9", Suit := "Clubs" }, { Rank := "K", Suit := "Diamonds" },
      { Rank := "2", Suit := "Spades" }] },
    Dealer := handOf ["10", "8"], Players := [handOf ["5", "6"], handOf ["A", "K"]] }

/-! ## 7. Configure, Continue and Begin -/

/-- The value `&Game{}` that `main` starts from. -/
def newGame : Game :=
  { Deck := { Cards := [] }, Dealer := { Hand := [], Bet := 0, Wallet := 0 }, Players := [] }

/-- Loop of `Game.Configure`: one new player with 1000 in the wallet per iteration. -/
def Game.configureLoop : Nat → List Player → List Player
  | 0, players => players
  | n + 1, players =>
    Game.configureLoop n (players ++ [{ Hand := [], Bet := 0, Wallet := 0 + 1000 }])

/-- `Game.Configure`: creates the players, the dealer and the initialized deck. -/
def Game.Configure (g : Game) (numOfPlayers : Int) : Game :=
  { Players := Game.configureLoop numOfPlayers.toNat g.Players,
    Dealer := { Hand := [], Bet := 0, Wallet := 0 },
    Deck := Blackjack.Deck.Initialize { Cards := [] } }

/-- What a call of `Game.Continue` does: it returns `keepPlaying`, ends the process with
`os.Exit(0)`, or panics on a failed `Scanln`. -/
inductive ContinueResult where
  | returned (keepPlaying : Bool) (rest : List String)
  | exit
  | panic (msg : String)

/-- `Game.Continue`: asks until a yes or a no arrives. -/
def Game.Continue : List String → ContinueResult
  | [] => .panic "Scanln failed"
  | prompt :: rest =>
    if prompt ∈ ["y", "Y", "yes", "Yes", "YES"] then .returned true rest
    else if prompt ∈ ["n", "N", "no", "No", "NO"] then .exit
    else Game.Continue rest

/-- How a call of `Game.Begin` ends: the process exits, it panics, or the call returns to its
caller with the game, the position in the random source and the input left; `outOfFuel`
marks a recursion bound that was too small. -/
inductive Ending where
  | exited
  | panicked (msg : String)
  | returned (g : Game) (pos : Nat) (inputs : List String)
  | outOfFuel

/-- What `Game.Begin` did, in order of execution. -/
inductive Event where
  | shuffled (before after : Deck)
  | bids (g : Game)
  | dealt (g : Game)
  | playerTurn (idx : Nat) (g : Game)
  | dealerTurn (g : Game)
  | payout (before after : Game)
  | newRound

/-- First loop of `Game.Begin`: every player bids, in index order. -/
def Game.bidLoop : List Player → List String → Except String (List Player × List String)
  | [], inputs => .ok ([], inputs)
  | p :: ps, inputs =>
    match p.Bid inputs with
    | .error err => .error err
    | .ok (q, rest) =>
      match Game.bidLoop ps rest with
      | .error err => .error err
      | .ok (qs, rest2) => .ok (q :: qs, rest2)

/-- Second loop of `Game.Begin`: two cards to every player, in index order. -/
def Game.dealLoop : List Player → Blackjack.Deck → Except String (List Player × Blackjack.Deck)
  | [], d => .ok ([], d)
  | p :: ps, d =>
    match p.InitialHand d 2 with
    | (some err, _, _) => .error err
    | (none, q, d1) =>
      match Game.dealLoop ps d1 with
      | .error err => .error err
      | .ok (qs, d2) => .ok (q :: qs, d2)

/-- Third loop of `Game.Begin`: the turn of every player who holds no blackjack. -/
def Game.turnsLoop : List Nat → Game → List String →
    Except String (Game × List String) × List Event
  | [], g, inputs => (.ok (g, inputs), [])
  | idx :: idxs, g, inputs =>
    match g.Players[idx]? with
    | none => (.error "index out of range", [])
    | some currPlayer =>
      if currPlayer.IsBlackjack then Game.turnsLoop idxs g inputs
      else
        match g.Round (idx : Int) inputs with
        | .error err => (.error err, [])
        | .ok (g1, rest) =>
          let r := Game.turnsLoop idxs g1 rest
          (r.1, Event.playerTurn idx g1 :: r.2)

/-- The part of `Game.Begin` after the dealer-blackjack block: player turns, dealer turn,
payout, results, and the final `if g.Continue() { g.Begin(numOfPlayers) }`; `again` is the
recursive call. -/
def Game.finishRound (again : Game → Nat → List String → Ending × List Event)
    (g : Game) (pos : Nat) (inputs : List String) : Ending × List Event :=
  match Game.turnsLoop (List.range g.Players.length) g inputs with
  | (.error err, evs) => (.panicked err, evs)
  | (.ok (g1, inputs1), evs) =>
    match g1.Round (-1) inputs1 with
    | .error err => (.panicked err, evs)
    | .ok (g2, inputs2) =>
      let g3 := g2.Payout
      let evs3 := evs ++ [Event.dealerTurn g2, Event.payout g2 g3]
      match Game.Continue inputs2 with
      | .panic msg => (.panicked msg, evs3)
      | .exit => (.exited, evs3)
      | .returned keepPlaying inputs3 =>
        if keepPlaying then
          let r := again g3 pos inputs3
          (r.1, evs3 ++ Event.newRound :: r.2)
        else (.returned g3 pos inputs3, evs3)

/-- `Game.Begin` with a bound `fuel` on the depth of its recursion. `rnd` is the stream of
raw outcomes of the random source and `pos` the number of outcomes used so far. -/
def Game.beginLoop (rnd : Nat → Nat) :
    Nat → Game → Nat → List String → Ending × List Event
  | 0, _, _, _ => (.outOfFuel, [])
  | fuel + 1, g, pos, inputs =>
    match Blackjack.Deck.Shuffle (fun k => rnd (pos + k)) g.Deck with
    | .error err => (.panicked err, [])
    | .ok deck =>
      let pos1 := pos + (g.Deck.Cards.length - 1)
      match Game.bidLoop g.Players inputs with
      | .error err => (.panicked err, [Event.shuffled g.Deck deck])
      | .ok (players, inputs1) =>
        let g0 : Game := { g with Deck := deck, Players := players }
        match Game.dealLoop players deck with
        | .error err => (.panicked err, [Event.shuffled g.Deck deck, Event.bids g0])
        | .ok (players2, deck2) =>
          match g.Dealer.InitialHand deck2 2 with
          | (some err, _, _) => (.panicked err, [Event.shuffled g.Deck deck, Event.bids g0])
          | (none, dealer, deck3) =>
            let g1 : Game := { Deck := deck3, Dealer := dealer, Players := players2 }
            let evs := [Event.shuffled g.Deck deck, Event.bids g0, Event.dealt g1]
            if g1.Dealer.IsBlackjack then
              let g2 := g1.Payout
              let evs2 := evs ++ [Event.payout g1 g2]
              match Game.Continue inputs1 with
              | .panic msg => (.panicked msg, evs2)
              | .exit => (.exited, evs2)
              | .returned keepPlaying inputs2 =>
                if keepPlaying then
                  match Game.beginLoop rnd fuel g2 pos1 inputs2 with
                  | (.returned g3 pos3 inputs3, evs3) =>
                    let r := Game.finishRound (Game.beginLoop rnd fuel) g3 pos3 inputs3
                    (r.1, evs2 ++ Event.newRound :: evs3 ++ r.2)
                  | (ending, evs3) => (ending, evs2 ++ Event.newRound :: evs3)
                else
                  let r := Game.finishRound (Game.beginLoop rnd fuel) g2 pos1 inputs2
                  (r.1, evs2 ++ r.2)
            else
              let r := Game.finishRound (Game.beginLoop rnd fuel) g1 pos1 inputs1
              (r.1, evs ++ r.2)

/-- `Game.Begin`: every round takes at least the dealer's two cards from the deck, which is
never refilled, so the depth of the recursion is bounded by the number of cards. -/
def Game.Begin (g : Game) (rnd : Nat → Nat) (inputs : List String) : Ending × List Event :=
  Game.beginLoop rnd (g.Deck.Cards.length + 1) g 0 inputs

/-- A table before a round in which the dealer is dealt a blackjack: with the random source
constantly 0 the shuffle moves the first card to the end, the player gets {5,6} and the
dealer {A,K}. -/
def blackjackTable : Game :=
  { Deck := { Cards := [{ Rank := "2", Suit := "Clubs" }, { Rank := "5", Suit := "Hearts" },
      { Rank := "6", Suit := "Hearts" }, { Rank := "A", Suit := "Spades" },
      { Rank := "K", Suit := "Spades" }, { Rank := "9", Suit := "Diamonds" }] },
    Dealer := { Hand := [], Bet := 0, Wallet := 0 },
    Players := [{ Hand := [], Bet := 0, Wallet := 1000 }] }

/-- The deck of `blackjackTable` after the shuffle. -/
def blackjackShuffled : Deck :=
  { Cards := blackjackTable.Deck.Cards.drop 1 ++ [{ Rank := "2", Suit := "Clubs" }] }

/-- The player of `blackjackTable` after a bid of 100. -/
def blackjackBidder : Player := { Hand := [], Bet := 100, Wallet := 1000 - ((100 : Int) : ℚ) }

/-- The game of `blackjackTable` after the deal: the dealer holds {A,K}. -/
def blackjackDealt : Game :=
  { Deck := { Cards := [{ Rank := "9", Suit := "Diamonds" }, { Rank := "2", Suit := "Clubs" }] },
    Dealer := { Hand := [{ Rank := "A", Suit := "Spades" }, { Rank := "K", Suit := "Spades" }],
                Bet := 0, Wallet := 0 },
    Players := [{ blackjackBidder with
      Hand := [{ Rank := "5", Suit := "Hearts" }, { Rank := "6", Suit := "Hearts" }] }] }

/-- The full deck after the first shuffle of a game when the random source is constantly 0:
the Ace of Hearts has moved to the end. -/
def roundOneDeck : Deck :=
  { Cards := (Deck.Initialize { Cards := [] }).Cards.drop 1 ++ [{ Rank := "A", Suit := "Hearts" }] }

/-- The single player of a new game after a bid of 100. -/
def roundOneBidder : Player :=
  { Hand := [], Bet := 100, Wallet := 0 + 1000 - ((100 : Int) : ℚ) }

/-- The game after the deal of round one: the player holds {2,3}, the dealer {4,5}. -/
def roundOneDealt : Game :=
  { Deck := { Cards := roundOneDeck.Cards.drop 4 },
    Dealer := { Hand := (roundOneDeck.Cards.drop 2).take 2, Bet := 0, Wallet := 0 },
    Players := [{ roundOneBidder with Hand := roundOneDeck.Cards.take 2 }] }

/-- The game after the dealer turn of round one: the dealer drew the 6 and the 7. -/
def roundOneDone : Game :=
  { Deck := { Cards := roundOneDeck.Cards.drop 6 },
    Dealer := { Hand := (roundOneDeck.Cards.drop 2).take 4, Bet := 0, Wallet := 0 },
    Players := [{ roundOneBidder with Hand := roundOneDeck.Cards.take 2 }] }

/-- The 46 remaining cards after the shuffle that opens round two (random source constantly
0): the 8 of Hearts has moved from the top to the end. -/
def roundTwoDeck : Deck :=
  { Cards := roundOneDeck.Cards.drop 7 ++ [{ Rank := "8", Suit := "Hearts" }] }

/-- The games reachable from `Game.Configure` by any sequence of shuffles, bids, initial
hands, player and dealer turns and payouts. -/
inductive Reachable : Game → Prop where
  | configure (n : Int) : Reachable (Game.Configure newGame n)
  | shuffle (g : Game) (rnd : Nat → Nat) (d : Deck) :
    Reachable g → Deck.Shuffle rnd g.Deck = .ok d → Reachable { g with Deck := d }
  | bid (g : Game) (i : Nat) (p q : Player) (inputs rest : List String) :
    Reachable g → g.Players[i]? = some p → p.Bid inputs = .ok (q, rest) →
    Reachable { g with Players := g.Players.set i q }
  | playerHand (g : Game) (i : Nat) (p : Player) (n : Int) :
    Reachable g → g.Players[i]? = some p →
    Reachable { g with Players := g.Players.set i (p.InitialHand g.Deck n).2.1,
                       Deck := (p.InitialHand g.Deck n).2.2 }
  | dealerHand (g : Game) (n : Int) :
    Reachable g →
    Reachable { g with Dealer := (g.Dealer.InitialHand g.Deck n).2.1,
                       Deck := (g.Dealer.InitialHand g.Deck n).2.2 }
  | round (g g2 : Game) (playerIdx : Int) (inputs rest : List String) :
    Reachable g → g.Round playerIdx inputs = .ok (g2, rest) → Reachable g2
  | payout (g : Game) : Reachable g → Reachable g.Payout

/-! # Theorems -/

/-! ## Hand scoring -/

theorem Card.Score_of_rank (c : Card) (h : c.Rank ∈ ranks) :
    c.Score = if c.Rank = "A" then 11 else faceValue c.Rank := by
  simp only [ranks, List.mem_cons, List.mem_singleton, List.not_mem_nil, or_false] at h
  rcases h with h | h | h | h | h | h | h | h | h | h | h | h | h <;>
    simp [Card.Score, faceValue, h]

theorem Player.scoreLoop_eq (hand : List Card) (hr : ∀ c ∈ hand, c.Rank ∈ ranks) :
    ∀ (score : Int) (aces : Nat), Player.scoreLoop hand score aces =
      (score + hardTotal hand + 10 * (aceCount hand : Int), aces + aceCount hand) := by
  induction hand with
  | nil => intro score aces; simp [Player.scoreLoop, hardTotal, aceCount]
  | cons c rest ih =>
    intro score aces
    have hc := Card.Score_of_rank c (hr c (List.mem_cons_self _ _))
    have ih2 := ih (fun x hx => hr x (List.mem_cons_of_mem _ hx))
    rw [Player.scoreLoop, ih2, hc]
    by_cases hA : c.Rank = "A"
    · simp only [hA, if_true, hardTotal, aceCount, Prod.mk.injEq]
      constructor
      · push_cast; ring
      · omega
    · simp only [hA, if_false, hardTotal, aceCount, Prod.mk.injEq]
      constructor
      · push_cast; ring
      · omega

theorem mem_handTotals (hand : List Card) :
    ∀ t : Int, t ∈ handTotals hand ↔ ∃ k : Nat, k ≤ aceCount hand ∧ t = hardTotal hand + 10 * (k : Int) := by
  induction hand with
  | nil =>
    intro t
    simp [handTotals, hardTotal, aceCount]
  | cons c rest ih =>
    intro t
    by_cases hA : c.Rank = "A"
    · simp only [handTotals, hA, if_true, List.mem_append, List.mem_map, hardTotal, aceCount, ih]
      constructor
      · rintro (⟨u, ⟨k, hk, rfl⟩, rfl⟩ | ⟨u, ⟨k, hk, rfl⟩, rfl⟩)
        · exact ⟨k, by omega, by ring⟩
        · exact ⟨k + 1, by omega, by push_cast; ring⟩
      · rintro ⟨k, hk, rfl⟩
        by_cases hk2 : k ≤ aceCount rest
        · exact Or.inl ⟨_, ⟨k, hk2, rfl⟩, by ring⟩
        · refine Or.inr ⟨_, ⟨k - 1, by omega, rfl⟩, ?_⟩
          have : ((k - 1 : Nat) : Int) = (k : Int) - 1 := by omega
          rw [this]; ring
    · simp only [handTotals, hA, if_false, List.mem_map, hardTotal, aceCount, ih]
      constructor
      · rintro ⟨u, ⟨k, hk, rfl⟩, rfl⟩
        exact ⟨k, by omega, by ring⟩
      · rintro ⟨k, hk, rfl⟩
        exact ⟨_, ⟨k, by omega, rfl⟩, by ring⟩

theorem Player.aceLoop_spec : ∀ (aces : Nat) (score : Int),
    ∃ j : Nat, j ≤ aces ∧ Player.aceLoop score aces = score - 10 * (j : Int) ∧
      (Player.aceLoop score aces ≤ 21 ∨ j = aces) ∧
      (0 < j → score - 10 * ((j : Int) - 1) > 21) := by
  intro aces
  induction aces with
  | zero => intro score; exact ⟨0, le_refl _, by simp [Player.aceLoop], Or.inr rfl, by simp⟩
  | succ a ih =>
    intro score
    by_cases hs : score > 21
    · obtain ⟨j, hj, he, hor, hlt⟩ := ih (score - 10)
      refine ⟨j + 1, by omega, ?_, ?_, ?_⟩
      · simp only [Player.aceLoop, SCORE_LIMIT, hs, if_true, he]; push_cast; ring
      · simp only [Player.aceLoop, SCORE_LIMIT, hs, if_true]
        rcases hor with h | h
        · exact Or.inl h
        · exact Or.inr (by omega)
      · intro _
        by_cases hj0 : 0 < j
        · have := hlt hj0; push_cast; omega
        · have : j = 0 := by omega
          subst this; simpa using hs
    · refine ⟨0, by omega, ?_, ?_, by simp⟩
      · simp [Player.aceLoop, SCORE_LIMIT, hs]
      · left; simp only [Player.aceLoop, SCORE_LIMIT, hs, if_false]; omega

/-- C1: for every hand with ranks in {A,2..10,J,Q,K}, `Player.Score` is the best Blackjack
total: when some way of counting each Ace as 1 or 11 gives at most 21 it is a total of the
hand, at most 21, and no total that is at most 21 exceeds it; otherwise it is the total
with every Ace counted as 1. In particular {A,K}, {A,A,9} and {A,A,A,8} score 21 and
{10,10,5} scores 25. -/
theorem Player.Score_best (p : Player) (hr : ∀ c ∈ p.Hand, c.Rank ∈ ranks) :
    ((∃ t ∈ handTotals p.Hand, t ≤ 21) →
      p.Score ∈ handTotals p.Hand ∧ p.Score ≤ 21 ∧
        ∀ t ∈ handTotals p.Hand, t ≤ 21 → t ≤ p.Score) ∧
    ((¬ ∃ t ∈ handTotals p.Hand, t ≤ 21) → p.Score = hardTotal p.Hand) ∧
    (handOf ["A", "K"]).Score = 21 ∧ (handOf ["A", "A", "9"]).Score = 21 ∧
    (handOf ["A", "A", "A", "8"]).Score = 21 ∧ (handOf ["10", "10", "5"]).Score = 25 := by
  have hS : ∃ j : Nat, j ≤ aceCount p.Hand ∧
      p.Score = hardTotal p.Hand + 10 * (aceCount p.Hand : Int) - 10 * (j : Int) ∧
      (p.Score ≤ 21 ∨ j = aceCount p.Hand) ∧
      (0 < j → hardTotal p.Hand + 10 * (aceCount p.Hand : Int) - 10 * ((j : Int) - 1) > 21) := by
    have h1 := Player.scoreLoop_eq p.Hand hr 0 0
    obtain ⟨j, hj, he, hor, hlt⟩ :=
      Player.aceLoop_spec (aceCount p.Hand) (hardTotal p.Hand + 10 * (aceCount p.Hand : Int))
    have hsc : p.Score =
        Player.aceLoop (hardTotal p.Hand + 10 * (aceCount p.Hand : Int)) (aceCount p.Hand) := by
      simp [Player.Score, h1]
    exact ⟨j, hj, by rw [hsc, he], by rw [hsc]; exact hor, hlt⟩
  obtain ⟨j, hj, he, hor, hlt⟩ := hS
  refine ⟨?_, ?_, by decide, by decide, by decide, by decide⟩
  · rintro ⟨t, ht, ht21⟩
    obtain ⟨k, hk, rfl⟩ := (mem_handTotals p.Hand t).1 ht
    have h21 : p.Score ≤ 21 := by
      rcases hor with h | h
      · exact h
      · subst h; omega
    refine ⟨(mem_handTotals p.Hand _).2 ⟨aceCount p.Hand - j, by omega, by omega⟩, h21, ?_⟩
    intro u hu hu21
    obtain ⟨m, hm, rfl⟩ := (mem_handTotals p.Hand u).1 hu
    by_cases hj0 : 0 < j
    · have := hlt hj0; omega
    · omega
  · intro hno
    have hhard : ¬ hardTotal p.Hand ≤ 21 := fun h =>
      hno ⟨hardTotal p.Hand, (mem_handTotals p.Hand _).2 ⟨0, by omega, by simp⟩, h⟩
    rcases hor with h | h
    · omega
    · subst h; omega

/-- Witness for C1 at the hands {A,A,9} (a soft total exists) and {10,10,5} (bust). -/
theorem Player.Score_best_witness :
    (∀ c ∈ (handOf ["A", "A", "9"]).Hand, c.Rank ∈ ranks) ∧
    (∃ t ∈ handTotals (handOf ["A", "A", "9"]).Hand, t ≤ 21) ∧
    ((handOf ["A", "A", "9"]).Score ∈ handTotals (handOf ["A", "A", "9"]).Hand ∧
      (handOf ["A", "A", "9"]).Score ≤ 21 ∧
      ∀ t ∈ handTotals (handOf ["A", "A", "9"]).Hand, t ≤ 21 →
        t ≤ (handOf ["A", "A", "9"]).Score) ∧
    (∀ c ∈ (handOf ["10", "10", "5"]).Hand, c.Rank ∈ ranks) ∧
    (¬ ∃ t ∈ handTotals (handOf ["10", "10", "5"]).Hand, t ≤ 21) ∧
    (handOf ["10", "10", "5"]).Score = hardTotal (handOf ["10", "10", "5"]).Hand :=
  ⟨by decide, by decide,
    (Player.Score_best (handOf ["A", "A", "9"]) (by decide)).1 (by decide),
    by decide, by decide,
    (Player.Score_best (handOf ["10", "10", "5"]) (by decide)).2.1 (by decide)⟩

/-! ## Payout -/

theorem Game.Payout_players (g : Game) (i : Nat) :
    (Game.Payout g).Players[i]? =
      (g.Players[i]?).map (fun player => (Game.payoutPlayer g.Dealer player).2) := by
  simp [Game.Payout]

theorem Game.payoutPlayer_frame (dealer p : Player) :
    (Game.payoutPlayer dealer p).2.Hand = p.Hand ∧ (Game.payoutPlayer dealer p).2.Bet = p.Bet := by
  unfold Game.payoutPlayer
  simp only [Player.Balance]
  split_ifs <;> simp

theorem Game.payoutPlayer_branch (dealer p : Player) (b : PayoutBranch) :
    (Game.payoutPlayer dealer p).1 = b ↔ branchCase dealer p b := by
  have hbj : (p.IsBlackjack && !dealer.IsBlackjack) = true ↔
      (p.IsBlackjack = true ∧ dealer.IsBlackjack = false) := by simp
  have h21 : p.IsBlackjack = true → p.Score = 21 := by
    simp only [Player.IsBlackjack, decide_eq_true_eq]
    exact fun h => h.1
  unfold Game.payoutPlayer
  simp only [SCORE_LIMIT, hbj]
  by_cases hb : p.IsBlackjack = true ∧ dealer.IsBlackjack = false
  · have hP := h21 hb.1
    cases b <;> simp [branchCase, hb, hP]
  · cases b <;> simp only [branchCase, hb, if_false, not_false_eq_true, true_and, and_true] <;>
      generalize p.Score = P at * <;>
      generalize dealer.Score = D at * <;>
      split_ifs with h2 h3 <;>
      simp only [true_iff, false_iff, reduceCtorEq, not_true_eq_false, not_false_eq_true,
        iff_true, iff_false, not_and, and_true, true_and] <;>
      omega

theorem Game.payoutPlayer_wallet (dealer p : Player) :
    (Game.payoutPlayer dealer p).2.Wallet = p.Wallet +
      (match (Game.payoutPlayer dealer p).1 with
        | .blackjack => 2.5 * (p.Bet : ℚ)
        | .win => 2 * (p.Bet : ℚ)
        | .lose => 0
        | .push => (p.Bet : ℚ)) := by
  unfold Game.payoutPlayer
  simp only [Player.Balance]
  split_ifs <;> simp <;> ring

theorem handOf_InRange (rs : List String) : (handOf rs).InRange :=
  ⟨by norm_num [handOf], by norm_num [handOf], 1800, by norm_num, by norm_num,
    by norm_num [handOf]⟩

theorem Player.InRange.amounts (p : Player) (hr : p.InRange) :
    Float64Exact (p.Bet : ℚ) ∧ Float64Exact ((p.Bet : ℚ) * 2.5) ∧
      Float64Exact ((p.Bet : ℚ) * 2) := by
  obtain ⟨hb0, hb1, _⟩ := hr
  refine ⟨⟨2 * p.Bet, by omega, by omega, ?_⟩, ⟨5 * p.Bet, by omega, by omega, ?_⟩,
    ⟨4 * p.Bet, by omega, by omega, ?_⟩⟩ <;> push_cast <;> ring

theorem Game.payoutPlayer_exact (dealer p : Player) (hr : p.InRange) :
    Float64Exact (Game.payoutPlayer dealer p).2.Wallet := by
  obtain ⟨hb0, hb1, m, hm0, hm1, hw⟩ := hr
  rw [Game.payoutPlayer_wallet, hw]
  generalize (Game.payoutPlayer dealer p).1 = b
  cases b
  · exact ⟨m + 5 * p.Bet, by omega, by omega, by push_cast; ring⟩
  · exact ⟨m + 4 * p.Bet, by omega, by omega, by push_cast; ring⟩
  · exact ⟨m, by omega, by omega, by push_cast; ring⟩
  · exact ⟨m + 2 * p.Bet, by omega, by omega, by push_cast; ring⟩

/-- C2: for every dealer hand and every player with bet B and wallet W in the range where the
`float64` arithmetic of the source is exact (0 <= B <= 2^49, W a multiple of 1/2 with
0 <= W <= 2^51), `Game.Payout` adds exactly 2.5*B to that player's wallet when the player has
a blackjack and the dealer has none; otherwise exactly 2*B when the player's score P is at
most 21 and the dealer's score D is over 21 or P > D; otherwise exactly 0 when (P > 21 and
D <= 21) or (P <= 21 and P < D). In that range `float64(B)`, the amounts 2.5*B and 2*B and
the new wallet are all held exactly by a `float64`. With bet 100: a blackjack against 18 adds
250, 20 against 18 adds 200, 22 against 19 adds 0. -/
theorem Game.Payout_amounts (g : Game) (i : Nat) (p : Player) (hp : g.Players[i]? = some p)
    (hr : p.InRange) :
    (Float64Exact (p.Bet : ℚ) ∧ Float64Exact ((p.Bet : ℚ) * 2.5) ∧
      Float64Exact ((p.Bet : ℚ) * 2)) ∧
    (∃ q, (Game.Payout g).Players[i]? = some q ∧ Float64Exact q.Wallet ∧
      ((p.IsBlackjack = true ∧ g.Dealer.IsBlackjack = false) →
        q.Wallet = p.Wallet + 2.5 * (p.Bet : ℚ)) ∧
      (¬ (p.IsBlackjack = true ∧ g.Dealer.IsBlackjack = false) →
        (p.Score ≤ 21 ∧ (g.Dealer.Score > 21 ∨ p.Score > g.Dealer.Score)) →
        q.Wallet = p.Wallet + 2 * (p.Bet : ℚ)) ∧
      (¬ (p.IsBlackjack = true ∧ g.Dealer.IsBlackjack = false) →
        ¬ (p.Score ≤ 21 ∧ (g.Dealer.Score > 21 ∨ p.Score > g.Dealer.Score)) →
        ((p.Score > 21 ∧ g.Dealer.Score ≤ 21) ∨ (p.Score ≤ 21 ∧ p.Score < g.Dealer.Score)) →
        q.Wallet = p.Wallet + 0)) ∧
    ((handOf ["A", "K"]).IsBlackjack = true ∧ (handOf ["10", "8"]).IsBlackjack = false ∧
      (Game.Payout (tableOf ["10", "8"] ["A", "K"])).Players.map (·.Wallet) = [900 + 250]) ∧
    ((handOf ["K", "Q"]).Score = 20 ∧ (handOf ["10", "8"]).Score = 18 ∧
      (Game.Payout (tableOf ["10", "8"] ["K", "Q"])).Players.map (·.Wallet) = [900 + 200]) ∧
    ((handOf ["K", "Q", "2"]).Score = 22 ∧ (handOf ["10", "9"]).Score = 19 ∧
      (Game.Payout (tableOf ["10", "9"] ["K", "Q", "2"])).Players.map (·.Wallet) = [900 + 0]) := by
  refine ⟨Player.InRange.amounts p hr, ⟨(Game.payoutPlayer g.Dealer p).2, ?_,
    Game.payoutPlayer_exact g.Dealer p hr, ?_, ?_, ?_⟩, ?_, ?_, ?_⟩
  · rw [Game.Payout_players, hp]; rfl
  · intro h
    have hb := (Game.payoutPlayer_branch g.Dealer p .blackjack).2 h
    rw [Game.payoutPlayer_wallet, hb]
  · intro h1 h2
    have hb := (Game.payoutPlayer_branch g.Dealer p .win).2 ⟨h1, h2⟩
    rw [Game.payoutPlayer_wallet, hb]
  · intro h1 h2 h3
    have hb := (Game.payoutPlayer_branch g.Dealer p .lose).2 ⟨h1, h2, h3⟩
    rw [Game.payoutPlayer_wallet, hb]
  · refine ⟨by decide, by decide, ?_⟩
    have hb : (Game.payoutPlayer (handOf ["10", "8"]) (handOf ["A", "K"])).1 = .blackjack := by
      decide
    simp only [Game.Payout, tableOf, List.map, Game.payoutPlayer_wallet, hb]
    norm_num [handOf]
  · refine ⟨by decide, by decide, ?_⟩
    have hb : (Game.payoutPlayer (handOf ["10", "8"]) (handOf ["K", "Q"])).1 = .win := by
      decide
    simp only [Game.Payout, tableOf, List.map, Game.payoutPlayer_wallet, hb]
    norm_num [handOf]
  · refine ⟨by decide, by decide, ?_⟩
    have hb : (Game.payoutPlayer (handOf ["10", "9"]) (handOf ["K", "Q", "2"])).1 = .lose := by
      decide
    simp only [Game.Payout, tableOf, List.map, Game.payoutPlayer_wallet, hb]
    norm_num [handOf]

/-- Witness for C2: the player {A,K} of a table whose dealer holds {10,8}. -/
theorem Game.Payout_amounts_witness :
    (tableOf ["10", "8"] ["A", "K"]).Players[0]? = some (handOf ["A", "K"]) ∧
    (handOf ["A", "K"]).InRange ∧
    ∃ q, (Game.Payout (tableOf ["10", "8"] ["A", "K"])).Players[0]? = some q ∧
      q.Wallet = (900 + 2.5 * 100 : ℚ) :=
  ⟨rfl, handOf_InRange ["A", "K"], by
    obtain ⟨q, hq, _, h1, _, _⟩ :=
      (Game.Payout_amounts (tableOf ["10", "8"] ["A", "K"]) 0 (handOf ["A", "K"]) rfl
        (handOf_InRange ["A", "K"])).2.1
    exact ⟨q, hq, by simpa [handOf] using h1 (by decide)⟩⟩

/-- C3 (as stated, refuted): the push branch is not taken in every case with equal scores of
at most 21. A player holding {A,K} against a dealer holding {7,7,7} has P = D = 21, yet the
blackjack branch is taken and the wallet grows by 250, not by the bet 100. -/
theorem Game.Payout_push_counterexample :
    (handOf ["A", "K"]).Score = 21 ∧ (handOf ["7", "7", "7"]).Score = 21 ∧
    (Game.payoutPlayer (handOf ["7", "7", "7"]) (handOf ["A", "K"])).1 = .blackjack ∧
    (Game.Payout (tableOf ["7", "7", "7"] ["A", "K"])).Players.map (·.Wallet) = [900 + 250] ∧
    ¬ (∀ dealer player : Player, (Game.payoutPlayer dealer player).1 = .push ↔
        ((player.Score > 21 ∧ dealer.Score > 21) ∨
          (player.Score = dealer.Score ∧ player.Score ≤ 21 ∧ dealer.Score ≤ 21))) := by
  have hb : (Game.payoutPlayer (handOf ["7", "7", "7"]) (handOf ["A", "K"])).1 = .blackjack := by
    decide
  refine ⟨by decide, by decide, hb, ?_, ?_⟩
  · simp only [Game.Payout, tableOf, List.map, Game.payoutPlayer_wallet, hb]
    norm_num [handOf]
  · intro h
    have h2 := (h (handOf ["7", "7", "7"]) (handOf ["A", "K"])).2
      (Or.inr ⟨by decide, by decide, by decide⟩)
    rw [hb] at h2
    exact absurd h2 (by decide)

/-- C3 (amended): for every dealer hand and player, exactly one of the four payout cases
applies and it is the branch `Game.Payout` takes; the push branch is taken exactly when both
scores are over 21, or P = D with both at most 21 and it is not the case that the player has
a blackjack while the dealer has none. For a bet B and wallet W in the range where the
`float64` arithmetic of the source is exact (0 <= B <= 2^49, W a multiple of 1/2 with
0 <= W <= 2^51) the push branch adds exactly B to the wallet, and the new wallet is held
exactly by a `float64`. With bet 100 and 19 against 19 the wallet grows by 100. -/
theorem Game.Payout_branches (g : Game) (i : Nat) (p : Player) (hp : g.Players[i]? = some p)
    (hr : p.InRange) :
    (∃! b, branchCase g.Dealer p b) ∧
    (∀ b, (Game.payoutPlayer g.Dealer p).1 = b ↔ branchCase g.Dealer p b) ∧
    ((Game.payoutPlayer g.Dealer p).1 = .push ↔
      ((p.Score > 21 ∧ g.Dealer.Score > 21) ∨
        (p.Score = g.Dealer.Score ∧ p.Score ≤ 21 ∧ g.Dealer.Score ≤ 21 ∧
          ¬ (p.IsBlackjack = true ∧ g.Dealer.IsBlackjack = false)))) ∧
    (∃ q, (Game.Payout g).Players[i]? = some q ∧ Float64Exact q.Wallet ∧
      ((Game.payoutPlayer g.Dealer p).1 = .push → q.Wallet = p.Wallet + (p.Bet : ℚ))) ∧
    ((handOf ["10", "9"]).Score = 19 ∧ (handOf ["9", "K"]).Score = 19 ∧
      (Game.Payout (tableOf ["9", "K"] ["10", "9"])).Players.map (·.Wallet) = [900 + 100]) := by
  refine ⟨?_, Game.payoutPlayer_branch g.Dealer p, ?_, ?_, ?_⟩
  · refine ⟨(Game.payoutPlayer g.Dealer p).1, (Game.payoutPlayer_branch g.Dealer p _).1 rfl, ?_⟩
    intro b hb
    exact ((Game.payoutPlayer_branch g.Dealer p b).2 hb).symm
  · rw [Game.payoutPlayer_branch]
    simp only [branchCase]
    constructor
    · rintro (h | ⟨h1, h2, h3⟩)
      · exact Or.inl h
      · exact Or.inr ⟨h1, h2, by omega, h3⟩
    · rintro (h | ⟨h1, h2, _, h3⟩)
      · exact Or.inl h
      · exact Or.inr ⟨h1, h2, h3⟩
  · refine ⟨(Game.payoutPlayer g.Dealer p).2, ?_, Game.payoutPlayer_exact g.Dealer p hr, ?_⟩
    · rw [Game.Payout_players, hp]; rfl
    · intro hb
      rw [Game.payoutPlayer_wallet, hb]
  · refine ⟨by decide, by decide, ?_⟩
    have hb : (Game.payoutPlayer (handOf ["9", "K"]) (handOf ["10", "9"])).1 = .push := by
      decide
    simp only [Game.Payout, tableOf, List.map, Game.payoutPlayer_wallet, hb]
    norm_num [handOf]

/-- Witness for C3 (amended): 19 against 19 with bet 100. -/
theorem Game.Payout_branches_witness :
    (tableOf ["9", "K"] ["10", "9"]).Players[0]? = some (handOf ["10", "9"]) ∧
    (handOf ["10", "9"]).InRange ∧
    ∃ q, (Game.Payout (tableOf ["9", "K"] ["10", "9"])).Players[0]? = some q ∧
      q.Wallet = (900 + 100 : ℚ) :=
  ⟨rfl, handOf_InRange ["10", "9"], by
    obtain ⟨q, hq, _, h1⟩ :=
      (Game.Payout_branches (tableOf ["9", "K"] ["10", "9"]) 0 (handOf ["10", "9"]) rfl
        (handOf_InRange ["10", "9"])).2.2.2.1
    exact ⟨q, hq, by simpa [handOf] using h1 (by decide)⟩⟩

/-! ## Deck -/

/-- C4: whatever the deck held before, `Deck.Initialize` leaves exactly 52 cards without
duplicates, one for each of the 13 ranks and 4 suits, in suit-major, rank-minor order: the
card at index i < 52 has suit `suits[i / 13]` and rank `ranks[i % 13]`. -/
theorem Deck.Initialize_spec (d : Deck) :
    (Deck.Initialize d).Cards.length = 52 ∧ (Deck.Initialize d).Cards.Nodup ∧
    ranks.length = 13 ∧ ranks.Nodup ∧ suits.length = 4 ∧ suits.Nodup ∧
    (∀ r ∈ ranks, ∀ s ∈ suits, (Deck.Initialize d).Cards.count { Rank := r, Suit := s } = 1) ∧
    (∀ c ∈ (Deck.Initialize d).Cards, c.Rank ∈ ranks ∧ c.Suit ∈ suits) ∧
    (∀ i, i < 52 → ∃ s r, suits[i / 13]? = some s ∧ ranks[i % 13]? = some r ∧
      (Deck.Initialize d).Cards[i]? = some { Rank := r, Suit := s }) := by
  have hd : Deck.Initialize d = Deck.Initialize { Cards := [] } := rfl
  rw [hd]
  refine ⟨by decide, by decide, by decide, by decide, by decide, by decide, ?_, by decide, ?_⟩
  · intro r hr s hs
    simp only [ranks, suits, List.mem_cons, List.mem_singleton, List.not_mem_nil, or_false]
      at hr hs
    rcases hr with h | h | h | h | h | h | h | h | h | h | h | h | h <;>
      rcases hs with h2 | h2 | h2 | h2 <;> subst h <;> subst h2 <;> decide
  · intro i hi
    interval_cases i <;> exact ⟨_, _, rfl, rfl, rfl⟩

/-- C7: on a deck of N >= 1 cards `Deck.Draw` succeeds, returns the card that was first and
leaves the remaining N-1 cards in their order; on the empty deck it returns an error, no
card, and the deck stays empty. -/
theorem Deck.Draw_spec (d : Deck) :
    (1 ≤ d.Cards.length →
      ∃ card, d.Cards.head? = some card ∧ d.Draw.1 = .ok card ∧
        d.Draw.2.Cards = d.Cards.tail ∧ d.Cards = card :: d.Draw.2.Cards ∧
        d.Draw.2.Cards.length = d.Cards.length - 1) ∧
    (d.Cards.length = 0 →
      d.Draw.1 = .error "Deck is empty" ∧ d.Draw.2 = d ∧ d.Draw.2.Cards = []) := by
  rcases d with ⟨cards⟩
  cases cards with
  | nil => simp [Deck.Draw]
  | cons c rest => simp [Deck.Draw]

/-- Witness for C7 at the freshly initialized deck. -/
theorem Deck.Draw_spec_witness :
    (1 ≤ (Deck.Initialize { Cards := [] }).Cards.length) ∧
    ∃ card, (Deck.Initialize { Cards := [] }).Cards.head? = some card ∧
      (Deck.Initialize { Cards := [] }).Draw.1 = .ok card ∧
      (Deck.Initialize { Cards := [] }).Draw.2.Cards.length = 51 :=
  ⟨by decide, by
    obtain ⟨card, h1, h2, _, _, h5⟩ :=
      (Deck.Draw_spec (Deck.Initialize { Cards := [] })).1 (by decide)
    exact ⟨card, h1, h2, by rw [h5]; decide⟩⟩

/-! ## InitialHand -/

theorem Player.initialHandLoop_ok : ∀ (n : Nat) (p : Player) (d : Deck), n ≤ d.Cards.length →
    Player.initialHandLoop n p d =
      (none, { p with Hand := p.Hand ++ d.Cards.take n }, { Cards := d.Cards.drop n }) := by
  intro n
  induction n with
  | zero => intro p d _; simp [Player.initialHandLoop]
  | succ n ih =>
    intro p d h
    rcases d with ⟨cards⟩
    cases cards with
    | nil => simp at h
    | cons c rest =>
      have h2 : n ≤ rest.length := by simpa using h
      simp only [Player.initialHandLoop, Deck.Draw]
      rw [ih (p.Add c) { Cards := rest } h2]
      simp [Player.Add]

theorem Player.initialHandLoop_short : ∀ (n : Nat) (p : Player) (d : Deck), d.Cards.length < n →
    Player.initialHandLoop n p d =
      (some "Deck is empty", { p with Hand := p.Hand ++ d.Cards }, { Cards := [] }) := by
  intro n
  induction n with
  | zero => intro p d h; simp at h
  | succ n ih =>
    intro p d h
    rcases d with ⟨cards⟩
    cases cards with
    | nil => simp [Player.initialHandLoop, Deck.Draw]
    | cons c rest =>
      have h2 : rest.length < n := by simpa using h
      simp only [Player.initialHandLoop, Deck.Draw]
      rw [ih (p.Add c) { Cards := rest } h2]
      simp [Player.Add]

/-- C8: for every player (whatever the previous hand), deck and n >= 0, `Player.InitialHand`
succeeds iff the deck has at least n cards, and then the hand is exactly the first n cards of
the deck in order and the deck is the rest; with fewer than n cards it returns the error of
`Draw` without rollback: the hand holds all the cards the deck had and the deck is empty. Bet
and wallet are untouched. -/
theorem Player.InitialHand_spec (p : Player) (d : Deck) (n : Int) (hn : 0 ≤ n) :
    ((p.InitialHand d n).1 = none ↔ n ≤ (d.Cards.length : Int)) ∧
    (n ≤ (d.Cards.length : Int) →
      p.InitialHand d n =
        (none, { p with Hand := d.Cards.take n.toNat }, { Cards := d.Cards.drop n.toNat })) ∧
    ((d.Cards.length : Int) < n →
      p.InitialHand d n = (some "Deck is empty", { p with Hand := d.Cards }, { Cards := [] }) ∧
      (Deck.Draw { Cards := [] }).1 = .error "Deck is empty") := by
  have hok : n ≤ (d.Cards.length : Int) →
      p.InitialHand d n =
        (none, { p with Hand := d.Cards.take n.toNat }, { Cards := d.Cards.drop n.toNat }) := by
    intro h
    have h2 : n.toNat ≤ d.Cards.length := by omega
    simp [Player.InitialHand, Player.initialHandLoop_ok n.toNat _ d h2]
  have hshort : (d.Cards.length : Int) < n →
      p.InitialHand d n = (some "Deck is empty", { p with Hand := d.Cards }, { Cards := [] }) := by
    intro h
    have h2 : d.Cards.length < n.toNat := by omega
    simp [Player.InitialHand, Player.initialHandLoop_short n.toNat _ d h2]
  refine ⟨?_, hok, ?_⟩
  · constructor
    · intro h
      by_contra hlt
      rw [hshort (by omega)] at h
      simp at h
    · intro h
      rw [hok h]
  · intro h
    exact ⟨hshort h, rfl⟩

/-- Witness for C8: two cards from the full deck, and two cards from a one-card deck. -/
theorem Player.InitialHand_spec_witness :
    ((0 : Int) ≤ 2) ∧
    (handOf ["A", "K"]).InitialHand (Deck.Initialize { Cards := [] }) 2 =
      (none,
        { handOf ["A", "K"] with
          Hand := [{ Rank := "A", Suit := "Hearts" }, { Rank := "2", Suit := "Hearts" }] },
        { Cards := (Deck.Initialize { Cards := [] }).Cards.drop 2 }) ∧
    (handOf ["A", "K"]).InitialHand { Cards := [{ Rank := "7", Suit := "Clubs" }] } 2 =
      (some "Deck is empty",
        { handOf ["A", "K"] with Hand := [{ Rank := "7", Suit := "Clubs" }] }, { Cards := [] }) :=
  ⟨by decide,
    (Player.InitialHand_spec (handOf ["A", "K"]) (Deck.Initialize { Cards := [] }) 2
      (by decide)).2.1 (by decide),
    ((Player.InitialHand_spec (handOf ["A", "K"]) { Cards := [{ Rank := "7", Suit := "Clubs" }] }
      2 (by decide)).2.2 (by decide)).1⟩

/-! ## Dealer turn -/

theorem Player.Score_hand (p q : Player) (h : p.Hand = q.Hand) : p.Score = q.Score := by
  simp [Player.Score, h]

theorem Game.dealerLoop_spec : ∀ (deck : List Card) (dealer : Player),
    (∃ k, k ≤ deck.length ∧
      (∀ j, j < k → ({ dealer with Hand := dealer.Hand ++ deck.take j } : Player).Score ≤ 16) ∧
      ({ dealer with Hand := dealer.Hand ++ deck.take k } : Player).Score > 16 ∧
      Game.dealerLoop dealer deck =
        .ok ({ dealer with Hand := dealer.Hand ++ deck.take k }, { Cards := deck.drop k })) ∨
    ((∀ j, j ≤ deck.length →
        ({ dealer with Hand := dealer.Hand ++ deck.take j } : Player).Score ≤ 16) ∧
      Game.dealerLoop dealer deck = .error "Deck is empty") := by
  intro deck
  induction deck with
  | nil =>
    intro dealer
    by_cases hs : dealer.Score > 16
    · left
      exact ⟨0, le_refl _, by intro j hj; omega, by simpa using hs, by simp [Game.dealerLoop, hs]⟩
    · right
      refine ⟨?_, by simp [Game.dealerLoop, hs]⟩
      intro j _
      simpa using not_lt.1 hs
  | cons c rest ih =>
    intro dealer
    by_cases hs : dealer.Score > 16
    · left
      exact ⟨0, Nat.zero_le _, by intro j hj; omega, by simpa using hs, by simp [Game.dealerLoop, hs]⟩
    · have h0 : dealer.Score ≤ 16 := not_lt.1 hs
      have hadd : ∀ j, ({ dealer.Add c with Hand := (dealer.Add c).Hand ++ rest.take j } : Player)
          = { dealer with Hand := dealer.Hand ++ (c :: rest).take (j + 1) } := by
        intro j; simp [Player.Add]
      rcases ih (dealer.Add c) with ⟨k, hk, hle, hgt, heq⟩ | ⟨hle, heq⟩
      · left
        refine ⟨k + 1, by simpa using hk, ?_, ?_, ?_⟩
        · intro j hj
          cases j with
          | zero => simpa using h0
          | succ j => rw [← hadd j]; exact hle j (by omega)
        · rw [← hadd k]; exact hgt
        · simp only [Game.dealerLoop, hs, if_false, heq]
          rw [hadd k]; simp
      · right
        refine ⟨?_, by simp only [Game.dealerLoop, hs, if_false, heq]⟩
        intro j hj
        cases j with
        | zero => simpa using h0
        | succ j => rw [← hadd j]; exact hle j (by simpa using hj)

/-- C9: the dealer turn (`Game.Round` with `playerIdx < 0`) draws the top card of the deck
exactly while the dealer's score is at most 16. With k the number of cards drawn: the hand
grows by the first k cards of the deck in order, the score before each draw was at most 16,
and either the score after the k-th draw exceeds 16 and the turn completes there (deck: the
remaining cards; players and input untouched), or the deck ran out at a score of at most
16 and the turn aborts. A start at 16 or less with a non-empty deck gives k >= 1, a start at
17 or more (a soft 17 such as {A,6} included) gives k = 0 and changes nothing. -/
theorem Game.Round_dealer (g : Game) (playerIdx : Int) (inputs : List String)
    (hidx : playerIdx < 0) :
    (∃ k, k ≤ g.Deck.Cards.length ∧
      (∀ j, j < k →
        ({ g.Dealer with Hand := g.Dealer.Hand ++ g.Deck.Cards.take j } : Player).Score ≤ 16) ∧
      ((({ g.Dealer with Hand := g.Dealer.Hand ++ g.Deck.Cards.take k } : Player).Score > 16 ∧
          g.Round playerIdx inputs =
            .ok ({ g with
                    Dealer := { g.Dealer with Hand := g.Dealer.Hand ++ g.Deck.Cards.take k },
                    Deck := { Cards := g.Deck.Cards.drop k } }, inputs)) ∨
        (k = g.Deck.Cards.length ∧
          ({ g.Dealer with Hand := g.Dealer.Hand ++ g.Deck.Cards.take k } : Player).Score ≤ 16 ∧
          g.Round playerIdx inputs = .error "Deck is empty")) ∧
      (g.Dealer.Score ≤ 16 → g.Deck.Cards ≠ [] → 1 ≤ k) ∧
      (g.Dealer.Score > 16 → k = 0)) ∧
    (g.Dealer.Score > 16 → g.Round playerIdx inputs = .ok (g, inputs)) ∧
    ((handOf ["A", "6"]).Score = 17 ∧
      ∀ deck players, Game.Round { Deck := deck, Dealer := handOf ["A", "6"], Players := players }
        playerIdx inputs =
          .ok ({ Deck := deck, Dealer := handOf ["A", "6"], Players := players }, inputs)) := by
  have h0 : ({ g.Dealer with Hand := g.Dealer.Hand ++ g.Deck.Cards.take 0 } : Player) = g.Dealer := by
    simp
  have hstand : ∀ g2 : Game, g2.Dealer.Score > 16 → g2.Round playerIdx inputs = .ok (g2, inputs) := by
    intro g2 h
    rcases g2 with ⟨⟨cards⟩, dealer, players⟩
    cases cards <;> simp_all [Game.Round, Game.dealerLoop]
  refine ⟨?_, hstand g, by decide, fun deck players =>
    hstand _ (show (handOf ["A", "6"]).Score > 16 by decide)⟩
  rcases Game.dealerLoop_spec g.Deck.Cards g.Dealer with ⟨k, hk, hle, hgt, heq⟩ | ⟨hle, heq⟩
  · refine ⟨k, hk, hle, Or.inl ⟨hgt, ?_⟩, ?_, ?_⟩
    · simp [Game.Round, hidx, heq]
    · intro hs hne
      by_contra hk0
      have : k = 0 := by omega
      subst this
      rw [h0] at hgt
      omega
    · intro hs
      by_contra hk0
      have := hle 0 (by omega)
      rw [h0] at this
      omega
  · refine ⟨g.Deck.Cards.length, le_refl _, fun j hj => hle j (by omega),
      Or.inr ⟨rfl, hle _ (le_refl _), ?_⟩, ?_, ?_⟩
    · simp [Game.Round, hidx, heq]
    · intro _ hne
      exact List.length_pos.2 hne
    · intro hs
      have := hle 0 (Nat.zero_le _)
      rw [h0] at this
      omega

/-- Witness for C9: a dealer at 16 over the deck [5, 9] draws exactly the 5. -/
theorem Game.Round_dealer_witness :
    ((-1 : Int) < 0) ∧
    (∃ k, 1 ≤ k ∧ k ≤ 2 ∧
      (({ dealerTable.Dealer with
            Hand := dealerTable.Dealer.Hand ++ dealerTable.Deck.Cards.take k } : Player).Score > 16 ∧
          dealerTable.Round (-1) [] =
            .ok ({ dealerTable with
                    Dealer := { dealerTable.Dealer with
                      Hand := dealerTable.Dealer.Hand ++ dealerTable.Deck.Cards.take k },
                    Deck := { Cards := dealerTable.Deck.Cards.drop k } }, []) ∨
        k = dealerTable.Deck.Cards.length ∧
          ({ dealerTable.Dealer with
            Hand := dealerTable.Dealer.Hand ++ dealerTable.Deck.Cards.take k } : Player).Score ≤ 16 ∧
          dealerTable.Round (-1) [] = .error "Deck is empty")) ∧
    dealerTable.Round (-1) [] =
      .ok ({ dealerTable with
              Dealer := { dealerTable.Dealer with
                Hand := dealerTable.Dealer.Hand ++ [{ Rank := "5", Suit := "Clubs" }] },
              Deck := { Cards := [{ Rank := "9", Suit := "Diamonds" }] } }, []) :=
  ⟨by decide, by
    obtain ⟨k, hk, _, hcase, h1, _⟩ := (Game.Round_dealer dealerTable (-1) [] (by decide)).1
    exact ⟨k, h1 (by decide) (by decide), hk, hcase⟩, rfl⟩

/-! ## Bid -/

theorem int64_le (w : ℚ) (hw : 0 ≤ w) (a : Int) : a ≤ int64 w ↔ (a : ℚ) ≤ w := by
  unfold int64
  rw [Int.tdiv_eq_ediv (Rat.num_nonneg.2 hw) (Int.ofNat_nonneg _), ← Rat.floor_def]
  exact Int.le_floor

theorem Player.Bid_cons (p : Player) (line : String) (rest : List String) :
    p.Bid (line :: rest) =
      match Scanln line with
      | none => .error "Scanln failed"
      | some prompt =>
        match ParseInt prompt with
        | some amount =>
          if amount > 0 ∧ amount ≤ int64 p.Wallet then
            .ok ({ p with Bet := amount, Wallet := p.Wallet - (amount : ℚ) }, rest)
          else p.Bid rest
        | none => p.Bid rest := by
  simp only [Player.Bid]

theorem Player.Bid_accept (p : Player) (line prompt : String) (rest : List String) (a : Int)
    (hs : Scanln line = some prompt) (hp : ParseInt prompt = some a) (hpos : 0 < a)
    (hle : (a : ℚ) ≤ p.Wallet) :
    p.Bid (line :: rest) = .ok ({ p with Bet := a, Wallet := p.Wallet - (a : ℚ) }, rest) := by
  have hw : 0 ≤ p.Wallet := le_trans (by exact_mod_cast le_of_lt hpos) hle
  have h2 : a ≤ int64 p.Wallet := (int64_le p.Wallet hw a).2 hle
  simp [Player.Bid_cons, hs, hp, hpos, h2]

theorem Player.Bid_reject (p : Player) (line prompt : String) (rest : List String)
    (hw : 0 ≤ p.Wallet) (hs : Scanln line = some prompt)
    (hno : ¬ ∃ a : Int, ParseInt prompt = some a ∧ 0 < a ∧ (a : ℚ) ≤ p.Wallet) :
    p.Bid (line :: rest) = p.Bid rest := by
  cases ha : ParseInt prompt with
  | none => simp only [Player.Bid_cons, hs, ha]
  | some a =>
    have h2 : ¬ (a > 0 ∧ a ≤ int64 p.Wallet) := by
      rintro ⟨h3, h4⟩
      exact hno ⟨a, ha, h3, (int64_le p.Wallet hw a).1 h4⟩
    simp only [Player.Bid_cons, hs, ha]
    rw [if_neg h2]

theorem ExactWallet.nonneg (w : ℚ) (h : ExactWallet w) : 0 ≤ w := by
  obtain ⟨m, h0, _, rfl⟩ := h
  have : (0 : ℚ) ≤ (m : ℚ) := by exact_mod_cast h0
  linarith

/-- C10 (as stated, refuted): an empty line and a line of two words are not rejected and
asked again. `Scanln` fails on them and `Player.Bid` panics, although the next line, 100,
is a valid bid; after a rejected word such as x the next line is read and accepted. -/
theorem Player.Bid_line_counterexample :
    Scanln "" = none ∧ Scanln "10 20" = none ∧
    (handOf []).Bid ["", "100"] = .error "Scanln failed" ∧
    (handOf []).Bid ["10 20", "100"] = .error "Scanln failed" ∧
    (handOf []).Bid ["x", "100"] =
      .ok (Player.mk (handOf []).Hand 100 ((handOf []).Wallet - ((100 : Int) : ℚ)), []) := by
  refine ⟨by decide, by decide, rfl, rfl, ?_⟩
  rw [Player.Bid_reject (handOf []) "x" "x" ["100"] (by norm_num [handOf]) (by decide) (by
    rintro ⟨a, ha, _⟩
    have hx : ParseInt "x" = none := by decide
    rw [hx] at ha
    cases ha)]
  exact Player.Bid_accept (handOf []) "100" "100" [] 100 (by decide) (by decide) (by decide)
    (by norm_num [handOf])

/-- C10 (amended): for every player whose wallet w is a multiple of 1/2 with 0 <= w <= 2^51
(where `int64(w)` and `w - a` are exact) and every input line. A line of exactly one word
(spaces around it ignored) is accepted iff the word parses (`strconv.ParseInt`) as an integer
a with a > 0 and a <= w; on acceptance the bet becomes a and the wallet w - a, the hand is
unchanged; any other word (not numeric, not positive, over the wallet) leaves the player as
before and the next line is asked for. On an empty line or a line of several words `Scanln`
fails and `Bid` panics. -/
theorem Player.Bid_spec (p : Player) (line : String) (rest : List String)
    (hw : ExactWallet p.Wallet) :
    (∀ prompt, Scanln line = some prompt →
      ((∃ q, p.Bid [line] = .ok (q, [])) ↔
        ∃ a : Int, ParseInt prompt = some a ∧ 0 < a ∧ (a : ℚ) ≤ p.Wallet) ∧
      (∀ a : Int, ParseInt prompt = some a → 0 < a → (a : ℚ) ≤ p.Wallet →
        p.Bid (line :: rest) =
          .ok ({ Hand := p.Hand, Bet := a, Wallet := p.Wallet - (a : ℚ) }, rest) ∧
        ExactWallet (p.Wallet - (a : ℚ)) ∧ a ≤ 2 ^ 51) ∧
      ((¬ ∃ a : Int, ParseInt prompt = some a ∧ 0 < a ∧ (a : ℚ) ≤ p.Wallet) →
        p.Bid (line :: rest) = p.Bid rest)) ∧
    (Scanln line = none → p.Bid (line :: rest) = .error "Scanln failed") ∧
    (0 ≤ int64 p.Wallet ∧ int64 p.Wallet ≤ 2 ^ 51 ∧
      ∀ a : Int, a ≤ int64 p.Wallet ↔ (a : ℚ) ≤ p.Wallet) ∧
    (Scanln "100" = some "100" ∧ Scanln " 100 " = some "100" ∧ Scanln "" = none ∧
      Scanln "   " = none ∧ Scanln "10 20" = none ∧
      ParseInt "abc" = none ∧ ParseInt "12x" = none ∧ ParseInt "2.5" = none ∧
      ParseInt "0" = some 0 ∧ ParseInt "-5" = some (-5) ∧ ParseInt "100" = some 100) := by
  have hw0 := ExactWallet.nonneg p.Wallet hw
  obtain ⟨m, hm0, hm, hwm⟩ := hw
  have hbound : ∀ a : Int, (a : ℚ) ≤ p.Wallet → 2 * a ≤ m := by
    intro a ha
    have h1 : ((2 * a : Int) : ℚ) ≤ (m : ℚ) := by
      push_cast
      rw [hwm] at ha
      linarith
    exact_mod_cast h1
  refine ⟨?_, ?_, ⟨?_, ?_, int64_le p.Wallet hw0⟩, by decide⟩
  · intro prompt hs
    refine ⟨⟨?_, ?_⟩, ?_, Player.Bid_reject p line prompt rest hw0 hs⟩
    · rintro ⟨q, hq⟩
      by_contra hno
      rw [Player.Bid_reject p line prompt [] hw0 hs hno] at hq
      cases hq
    · rintro ⟨a, ha, hpos, hle⟩
      exact ⟨_, Player.Bid_accept p line prompt [] a hs ha hpos hle⟩
    · intro a ha hpos hle
      have h2 := hbound a hle
      refine ⟨Player.Bid_accept p line prompt rest a hs ha hpos hle, ⟨m - 2 * a, by omega, by omega,
        ?_⟩, by omega⟩
      rw [hwm]
      push_cast
      ring
  · intro hs
    rw [Player.Bid_cons, hs]
  · exact (int64_le p.Wallet hw0 0).2 (by simpa using hw0)
  · have h1 := hbound (int64 p.Wallet) ((int64_le p.Wallet hw0 _).1 (le_refl _))
    omega

/-- Witness for C10 (amended): wallet 900; the line 250 is accepted, the line 901 is asked
again. -/
theorem Player.Bid_spec_witness :
    ExactWallet (handOf ["A", "K"]).Wallet ∧
    (handOf ["A", "K"]).Bid [" 250", "7"] =
      .ok ({ Hand := (handOf ["A", "K"]).Hand, Bet := 250,
             Wallet := (handOf ["A", "K"]).Wallet - ((250 : Int) : ℚ) }, ["7"]) ∧
    (handOf ["A", "K"]).Bid ["901", "7"] = (handOf ["A", "K"]).Bid ["7"] :=
  ⟨⟨1800, by norm_num, by norm_num, by norm_num [handOf]⟩,
    (((Player.Bid_spec (handOf ["A", "K"]) " 250" ["7"]
      ⟨1800, by norm_num, by norm_num, by norm_num [handOf]⟩).1 "250" (by decide)).2.1 250
        (by decide) (by decide) (by norm_num [handOf])).1,
    ((Player.Bid_spec (handOf ["A", "K"]) "901" ["7"]
      ⟨1800, by norm_num, by norm_num, by norm_num [handOf]⟩).1 "901" (by decide)).2.2 (by
      rintro ⟨a, ha, _, hle⟩
      have h901 : ParseInt "901" = some 901 := by decide
      rw [h901] at ha
      cases ha
      norm_num [handOf] at hle)⟩

/-! ## Shuffle -/

theorem cons_set_perm : ∀ (xs : List Card) (j : Nat) (x b : Card), xs[j]? = some b →
    (b :: xs.set j x).Perm (x :: xs) := by
  intro xs
  induction xs with
  | nil => intro j x b h; simp at h
  | cons y ys ih =>
    intro j x b h
    cases j with
    | zero =>
      have hy : y = b := by simpa using h
      subst hy
      exact List.Perm.swap x y ys
    | succ k =>
      have hk : ys[k]? = some b := by simpa using h
      exact ((List.Perm.swap y b _).trans ((ih k x b hk).cons y)).trans (List.Perm.swap x y ys)

theorem set_set_swap_perm : ∀ (l : List Card) (i j : Nat) (a b : Card), i < j →
    l[i]? = some a → l[j]? = some b → ((l.set i b).set j a).Perm l := by
  intro l
  induction l with
  | nil => intro i j a b _ h; simp at h
  | cons x xs ih =>
    intro i j a b hij ha hb
    cases j with
    | zero => omega
    | succ k =>
      have hk : xs[k]? = some b := by simpa using hb
      cases i with
      | zero =>
        have hx : x = a := by simpa using ha
        subst hx
        exact cons_set_perm xs k x b hk
      | succ m =>
        have hm : xs[m]? = some a := by simpa using ha
        exact (ih m k a b (by omega) hm hk).cons x

/-- The swap partner chosen in iteration `idx`, as a natural number. -/
theorem Deck.randIdx_eq (rnd : Nat → Nat) (len idx : Nat) (h : idx + 1 < len) :
    Deck.randIdx rnd ((len : Int) - 1) idx =
      .ok (((rnd idx % (len - 1 - idx) + idx + 1 : Nat)) : Int) ∧
    idx < rnd idx % (len - 1 - idx) + idx + 1 ∧ rnd idx % (len - 1 - idx) + idx + 1 < len := by
  have hm : 0 < len - 1 - idx := by omega
  have hlt := Nat.mod_lt (rnd idx) hm
  have hn : ((len : Int) - 1 - (idx : Int)) = ((len - 1 - idx : Nat) : Int) := by omega
  refine ⟨?_, by omega, by omega⟩
  have hpos : ¬ ((len - 1 - idx : Nat) : Int) ≤ 0 := by omega
  simp only [Deck.randIdx, Intn, hn, hpos, if_false, bind, Except.bind, pure, Except.pure]
  congr 1

theorem Deck.shuffleStep_eq (rnd : Nat → Nat) (n : Nat) (cards : List Card) (idx : Nat)
    (hn : cards.length = n) (h : idx + 1 < n) :
    ∃ a b, cards[idx]? = some a ∧ cards[rnd idx % (n - 1 - idx) + idx + 1]? = some b ∧
      Deck.shuffleStep rnd ((n : Int) - 1) cards idx =
        .ok ((cards.set idx b).set (rnd idx % (n - 1 - idx) + idx + 1) a) := by
  subst hn
  obtain ⟨hr, h1, h2⟩ := Deck.randIdx_eq rnd cards.length idx h
  have hi : idx < cards.length := by omega
  refine ⟨cards[idx], cards[rnd idx % (cards.length - 1 - idx) + idx + 1], by simp [hi],
    by simp [h2], ?_⟩
  have e1 : index cards (idx : Int) = .ok cards[idx] := by
    simp [index, hi]
  have e2 : index cards ((rnd idx % (cards.length - 1 - idx) + idx + 1 : Nat) : Int) =
      .ok cards[rnd idx % (cards.length - 1 - idx) + idx + 1] := by
    have hneg : ¬ (((rnd idx % (cards.length - 1 - idx) + idx + 1 : Nat) : Int) < 0) := by omega
    simp only [index, hneg, if_false, Int.toNat_ofNat]
    simp [h2]
  simp only [Deck.shuffleStep, e1, hr, e2, bind, Except.bind]
  have hb1 : ¬ ((idx : Int) < 0 ∨ (cards.length : Int) ≤ (idx : Int)) := by omega
  simp only [assign, hb1, if_false, Int.toNat_ofNat, List.length_set]
  have hb2 : ¬ (((rnd idx % (cards.length - 1 - idx) + idx + 1 : Nat) : Int) < 0 ∨
      (cards.length : Int) ≤ ((rnd idx % (cards.length - 1 - idx) + idx + 1 : Nat) : Int)) := by
    omega
  simp only [hb2, if_false, Int.toNat_ofNat]

theorem Deck.shuffle_fold (rnd : Nat → Nat) (n : Nat) : ∀ (idxs : List Nat) (cards : List Card),
    cards.length = n → (∀ i ∈ idxs, i + 1 < n) →
    ∃ res, idxs.foldlM (Deck.shuffleStep rnd ((n : Int) - 1)) cards = .ok res ∧
      res.Perm cards := by
  intro idxs
  induction idxs with
  | nil => intro cards _ _; exact ⟨cards, rfl, List.Perm.refl _⟩
  | cons i rest ih =>
    intro cards hn hall
    have hi : i + 1 < n := hall i (List.mem_cons_self _ _)
    obtain ⟨a, b, ha, hb, hstep⟩ := Deck.shuffleStep_eq rnd n cards i hn hi
    have hperm := set_set_swap_perm cards i _ a b (by omega) ha hb
    obtain ⟨res, hres, hp⟩ := ih _ (hperm.length_eq.trans hn)
      (fun k hk => hall k (List.mem_cons_of_mem _ hk))
    refine ⟨res, ?_, hp.trans hperm⟩
    rw [List.foldlM_cons, hstep]
    exact hres

/-- C5: for every deck and every sequence of outcomes of the random source, `Deck.Shuffle`
completes and the deck afterwards is a permutation of the deck before: same length and the
same number of copies of every card. -/
theorem Deck.Shuffle_perm (rnd : Nat → Nat) (d : Deck) :
    ∃ res, Deck.Shuffle rnd d = .ok res ∧ res.Cards.Perm d.Cards ∧
      res.Cards.length = d.Cards.length ∧ ∀ c, res.Cards.count c = d.Cards.count c := by
  obtain ⟨res, hres, hp⟩ := Deck.shuffle_fold rnd d.Cards.length
    (List.range ((d.Cards.length : Int) - 1).toNat) d.Cards rfl (fun i hi => by
      have := List.mem_range.1 hi
      omega)
  refine ⟨{ d with Cards := res }, ?_, hp, hp.length_eq, fun c => hp.count_eq c⟩
  simp only [Deck.Shuffle, hres, bind, Except.bind, pure, Except.pure]

theorem Deck.shuffle_fold_head (rnd : Nat → Nat) (n : Nat) :
    ∀ (idxs : List Nat) (cards res : List Card), cards.length = n →
    (∀ i ∈ idxs, 0 < i ∧ i + 1 < n) →
    idxs.foldlM (Deck.shuffleStep rnd ((n : Int) - 1)) cards = .ok res →
    res[0]? = cards[0]? := by
  intro idxs
  induction idxs with
  | nil =>
    intro cards res _ _ h
    have : cards = res := by simpa [List.foldlM, pure, Except.pure] using h
    rw [this]
  | cons i rest ih =>
    intro cards res hn hall h
    obtain ⟨hi0, hi⟩ := hall i (List.mem_cons_self _ _)
    obtain ⟨a, b, ha, hb, hstep⟩ := Deck.shuffleStep_eq rnd n cards i hn hi
    rw [List.foldlM_cons, hstep] at h
    have h3 := ih _ res (by simpa using hn)
      (fun k hk => hall k (List.mem_cons_of_mem _ hk)) h
    rw [h3, List.getElem?_set_ne (by omega), List.getElem?_set_ne (by omega)]

theorem Deck.Shuffle_head (rnd : Nat → Nat) (d res : Deck) (hn : 2 ≤ d.Cards.length)
    (h : Deck.Shuffle rnd d = .ok res) :
    res.Cards[0]? = d.Cards[rnd 0 % (d.Cards.length - 1) + 1]? ∧
      rnd 0 % (d.Cards.length - 1) + 1 < d.Cards.length := by
  obtain ⟨a, b, ha, hb, hstep⟩ := Deck.shuffleStep_eq rnd d.Cards.length d.Cards 0 rfl (by omega)
  have hj : rnd 0 % (d.Cards.length - 1) + 1 < d.Cards.length := by
    have := Nat.mod_lt (rnd 0) (show 0 < d.Cards.length - 1 by omega)
    omega
  refine ⟨?_, hj⟩
  have hr : ((d.Cards.length : Int) - 1).toNat = (d.Cards.length - 2) + 1 := by omega
  simp only [Deck.Shuffle, hr, List.range_succ_eq_map, List.foldlM_cons, hstep] at h
  simp only [Nat.sub_zero, Nat.add_zero] at h hb
  cases hf : (List.map Nat.succ (List.range (d.Cards.length - 2))).foldlM
      (Deck.shuffleStep rnd ((d.Cards.length : Int) - 1))
      ((d.Cards.set 0 b).set (rnd 0 % (d.Cards.length - 1) + 1) a) with
  | error e =>
    simp only [bind, Except.bind] at h hf
    rw [hf] at h
    cases h
  | ok cs =>
    have hhead := Deck.shuffle_fold_head rnd d.Cards.length _ _ cs (by simp) (fun k hk => by
      obtain ⟨m, hm, rfl⟩ := List.mem_map.1 hk
      have := List.mem_range.1 hm
      simp only [Nat.succ_eq_add_one]
      omega) hf
    simp only [bind, Except.bind] at h hf
    rw [hf] at h
    have hres : res.Cards = cs := by
      simp only [pure, Except.pure] at h
      cases h
      rfl
    rw [hres, hhead, List.getElem?_set_ne (by omega), List.getElem?_set_self (by omega), hb]

/-- C6 (defect of the code): `Deck.Shuffle` is to randomize the order of the cards, with
position idx itself among the possible swap partners of idx, but the partner is
`rand.Intn(maxIdx-idx)+idx+1`, with the 1 added outside `Intn`. On the deck
[A/Hearts, K/Spades] the partner of position 0 is always position 1 and every outcome of the
random source gives [K/Spades, A/Hearts]: the unchanged order is never the result, so not
every permutation is possible. -/
theorem Deck.Shuffle_identity_counterexample :
    (∀ rnd : Nat → Nat, Deck.randIdx rnd ((twoCards.Cards.length : Int) - 1) 0 = .ok 1) ∧
    (∀ rnd : Nat → Nat, Deck.Shuffle rnd twoCards =
      .ok { Cards := [{ Rank := "K", Suit := "Spades" }, { Rank := "A", Suit := "Hearts" }] }) ∧
    ¬ ∃ rnd : Nat → Nat, Deck.Shuffle rnd twoCards = .ok twoCards := by
  have hsh : ∀ rnd : Nat → Nat, Deck.Shuffle rnd twoCards =
      .ok { Cards := [{ Rank := "K", Suit := "Spades" }, { Rank := "A", Suit := "Hearts" }] } := by
    intro rnd
    simp [Deck.Shuffle, twoCards, List.range, List.range.loop, Deck.shuffleStep, Deck.randIdx,
      Intn, index, assign, bind, Except.bind, pure, Except.pure, Int.emod_one]
  refine ⟨?_, hsh, ?_⟩
  · intro rnd
    simp [Deck.randIdx, Intn, twoCards, bind, Except.bind, pure, Except.pure, Int.emod_one]
  · rintro ⟨rnd, h⟩
    rw [hsh rnd] at h
    have h2 : ({ Cards := [{ Rank := "K", Suit := "Spades" }, { Rank := "A", Suit := "Hearts" }] }
        : Deck) = twoCards := Except.ok.inj h
    exact absurd h2 (by decide)

/-- The pass of `Deck.Shuffle` as the code makes it: positions idx = 0..n-2 in order, each
swapped with an index from the strictly later positions idx+1..n-1; each of these is a
possible choice and idx itself is not, so on a deck of n >= 2 pairwise distinct cards the
unchanged order is never the result. -/
theorem Deck.Shuffle_strictly_later (rnd : Nat → Nat) (d : Deck) :
    Deck.Shuffle rnd d =
      ((List.range (d.Cards.length - 1)).foldlM
        (Deck.shuffleStep rnd ((d.Cards.length : Int) - 1)) d.Cards).map
        (fun cs => { Cards := cs }) ∧
    (∀ (idx : Nat) (cards : List Card), cards.length = d.Cards.length →
      idx + 1 < d.Cards.length →
      ∃ (j : Nat) (a b : Card), idx < j ∧ j < d.Cards.length ∧
        Deck.randIdx rnd ((d.Cards.length : Int) - 1) idx = .ok (j : Int) ∧
        cards[idx]? = some a ∧ cards[j]? = some b ∧
        Deck.shuffleStep rnd ((d.Cards.length : Int) - 1) cards idx =
          .ok ((cards.set idx b).set j a)) ∧
    (∀ idx j : Nat, idx < j → j < d.Cards.length →
      ∃ rnd2 : Nat → Nat, Deck.randIdx rnd2 ((d.Cards.length : Int) - 1) idx = .ok (j : Int)) ∧
    (2 ≤ d.Cards.length → d.Cards.Nodup →
      ∀ res, Deck.Shuffle rnd d = .ok res → res.Cards ≠ d.Cards) := by
  refine ⟨?_, ?_, ?_, ?_⟩
  · have hr : ((d.Cards.length : Int) - 1).toNat = d.Cards.length - 1 := by omega
    simp only [Deck.Shuffle, hr, bind, Except.bind, pure, Except.pure, Except.map]
  · intro idx cards hlen hidx
    obtain ⟨a, b, ha, hb, hstep⟩ := Deck.shuffleStep_eq rnd d.Cards.length cards idx hlen hidx
    obtain ⟨hr, h1, h2⟩ := Deck.randIdx_eq rnd d.Cards.length idx hidx
    exact ⟨_, a, b, h1, h2, hr, ha, hb, hstep⟩
  · intro idx j hij hj
    refine ⟨fun _ => j - idx - 1, ?_⟩
    obtain ⟨hr, _, _⟩ := Deck.randIdx_eq (fun _ => j - idx - 1) d.Cards.length idx (by omega)
    rw [hr, Nat.mod_eq_of_lt (by omega)]
    congr 2
    omega
  · intro hn hnd res hres heq
    obtain ⟨hhead, hj⟩ := Deck.Shuffle_head rnd d res hn hres
    rw [heq, List.getElem?_eq_getElem (by omega), List.getElem?_eq_getElem hj] at hhead
    have h2 := (hnd.getElem_inj_iff).1 (Option.some.inj hhead)
    omega

/-- The pass of `Deck.Shuffle` at a deck of two different cards. -/
theorem Deck.Shuffle_strictly_later_witness :
    (2 ≤ twoCards.Cards.length) ∧ twoCards.Cards.Nodup ∧
    Deck.Shuffle (fun _ => 0) twoCards =
      .ok { Cards := [{ Rank := "K", Suit := "Spades" }, { Rank := "A", Suit := "Hearts" }] } ∧
    ({ Cards := [{ Rank := "K", Suit := "Spades" }, { Rank := "A", Suit := "Hearts" }] } : Deck).Cards
      ≠ twoCards.Cards :=
  ⟨by decide, by decide, rfl,
    (Deck.Shuffle_strictly_later (fun _ => 0) twoCards).2.2.2 (by decide) (by decide) _ rfl⟩

/-! ## Card scores, blackjack, actions -/

theorem Deck.Initialize_mem (d : Deck) :
    ∀ c ∈ (Deck.Initialize d).Cards, c.Rank ∈ ranks ∧ c.Suit ∈ suits := by
  have hd : Deck.Initialize d = Deck.Initialize { Cards := [] } := rfl
  rw [hd]
  decide

/-- C14: for every card of the initialized deck, `Card.Score` is 11 for an Ace, 10 for J, Q
and K, and the number written on the card (its rank read as a decimal integer) for the
ranks 2 to 10; so every card scores between 2 and 11. -/
theorem Card.Score_spec (d : Deck) (c : Card) (hc : c ∈ (Deck.Initialize d).Cards) :
    (c.Rank = "A" → c.Score = 11) ∧
    (c.Rank = "J" ∨ c.Rank = "Q" ∨ c.Rank = "K" → c.Score = 10) ∧
    (∀ n : Int, ParseInt c.Rank = some n → 2 ≤ n ∧ n ≤ 10 ∧ c.Score = n) ∧
    (c.Rank = "A" ∨ c.Rank = "J" ∨ c.Rank = "Q" ∨ c.Rank = "K" ∨
      (ParseInt c.Rank).isSome = true) ∧
    (c.Rank ≠ "A" → c.Score = faceValue c.Rank) ∧
    2 ≤ c.Score ∧ c.Score ≤ 11 := by
  have hr := (Deck.Initialize_mem d c hc).1
  rcases c with ⟨rank, suit⟩
  simp only [ranks, List.mem_cons, List.mem_singleton, List.not_mem_nil, or_false] at hr
  rcases hr with h | h | h | h | h | h | h | h | h | h | h | h | h <;> subst h <;>
    dsimp only [Card.Score] <;>
    refine ⟨by decide, by decide, ?_, by decide, by decide, by decide, by decide⟩ <;>
    show ∀ n ∈ ParseInt _, _ <;>
    decide

/-- Witness for C14 at the seven of clubs. -/
theorem Card.Score_spec_witness :
    ({ Rank := "7", Suit := "Clubs" } : Card) ∈ (Deck.Initialize { Cards := [] }).Cards ∧
    ((2 : Int) ≤ 7 ∧ (7 : Int) ≤ 10 ∧ ({ Rank := "7", Suit := "Clubs" } : Card).Score = 7) :=
  ⟨by decide,
    (Card.Score_spec { Cards := [] } { Rank := "7", Suit := "Clubs" } (by decide)).2.2.1 7
      (by decide)⟩

theorem Player.IsBlackjack_iff (p : Player) :
    p.IsBlackjack = true ↔ p.Hand.length = 2 ∧ p.Score = 21 := by
  simp only [Player.IsBlackjack, decide_eq_true_eq]
  exact And.comm

theorem Player.Score_pair (p : Player) (c1 c2 : Card) (h : p.Hand = [c1, c2]) :
    p.Score = Player.aceLoop (c1.Score + c2.Score)
      ((if c1.Rank = "A" then 1 else 0) + (if c2.Rank = "A" then 1 else 0)) := by
  simp only [Player.Score, h, Player.scoreLoop, zero_add]
  by_cases h1 : c1.Rank = "A" <;> by_cases h2 : c2.Rank = "A" <;> simp [h1, h2]

/-- C13: `Player.IsBlackjack` is true iff the hand has exactly 2 cards and `Player.Score` of
the hand is 21; for cards with ranks in {A,2..10,J,Q,K} that is exactly a hand of one Ace and
one card of rank 10, J, Q or K, in either order. {A,K} is a blackjack, {A,A,9} is not. -/
theorem Player.IsBlackjack_spec (p : Player) :
    (p.IsBlackjack = true ↔ p.Hand.length = 2 ∧ p.Score = 21) ∧
    ((∀ c ∈ p.Hand, c.Rank ∈ ranks) →
      (p.IsBlackjack = true ↔ ∃ c1 c2, p.Hand = [c1, c2] ∧
        ((c1.Rank = "A" ∧ c2.Rank ∈ ["10", "J", "Q", "K"]) ∨
          (c1.Rank ∈ ["10", "J", "Q", "K"] ∧ c2.Rank = "A")))) ∧
    (handOf ["A", "K"]).IsBlackjack = true ∧ (handOf ["A", "A", "9"]).IsBlackjack = false := by
  refine ⟨Player.IsBlackjack_iff p, ?_, by decide, by decide⟩
  intro hr
  rw [Player.IsBlackjack_iff]
  constructor
  · rintro ⟨hlen, hs⟩
    obtain ⟨c1, c2, hh⟩ := List.length_eq_two.1 hlen
    refine ⟨c1, c2, hh, ?_⟩
    have h1 : c1.Rank ∈ ranks := hr c1 (by simp [hh])
    have h2 : c2.Rank ∈ ranks := hr c2 (by simp [hh])
    rw [Player.Score_pair p c1 c2 hh] at hs
    simp only [ranks, List.mem_cons, List.mem_singleton, List.not_mem_nil, or_false] at h1 h2
    rcases h1 with h1 | h1 | h1 | h1 | h1 | h1 | h1 | h1 | h1 | h1 | h1 | h1 | h1 <;>
      rcases h2 with h2 | h2 | h2 | h2 | h2 | h2 | h2 | h2 | h2 | h2 | h2 | h2 | h2 <;>
      simp only [h1, h2, Card.Score] at hs ⊢ <;>
      first
      | decide
      | exact absurd hs (by decide)
  · rintro ⟨c1, c2, hh, hc⟩
    refine ⟨by simp [hh], ?_⟩
    rw [Player.Score_pair p c1 c2 hh]
    simp only [List.mem_cons, List.mem_singleton, List.not_mem_nil, or_false] at hc
    rcases hc with ⟨h1, h2 | h2 | h2 | h2⟩ | ⟨h1 | h1 | h1 | h1, h2⟩ <;>
      simp only [h1, h2, Card.Score] <;> decide

/-- Witness for C13: the hand {K,A} has valid ranks and is a blackjack. -/
theorem Player.IsBlackjack_spec_witness :
    (∀ c ∈ (handOf ["K", "A"]).Hand, c.Rank ∈ ranks) ∧
    (∃ c1 c2, (handOf ["K", "A"]).Hand = [c1, c2] ∧
      ((c1.Rank = "A" ∧ c2.Rank ∈ ["10", "J", "Q", "K"]) ∨
        (c1.Rank ∈ ["10", "J", "Q", "K"] ∧ c2.Rank = "A"))) :=
  ⟨by decide,
    ((Player.IsBlackjack_spec (handOf ["K", "A"])).2.1 (by decide)).1 (by decide)⟩

/-- C12 (as stated, refuted): the token hIT equals hit ignoring letter case, and sTAND equals
stand, yet `Player.Action` accepts neither: it asks again and takes the next token. -/
theorem Player.Action_case_counterexample :
    lowerOf "hIT" = lowerOf "hit" ∧ lowerOf "sTAND" = lowerOf "stand" ∧
    actionOfToken "hIT" = none ∧ actionOfToken "sTAND" = none ∧
    (handOf []).Action ["hIT"] = .error "Scanln failed" ∧
    (handOf []).Action ["hIT", "s"] = .ok (.STAND, []) ∧
    (handOf []).Action ["sTAND", "h"] = .ok (.HIT, []) :=
  ⟨by decide, by decide, by decide, by decide, rfl, rfl, rfl⟩

theorem Player.Action_cons (p : Player) (prompt : String) (rest : List String) :
    p.Action (prompt :: rest) =
      match actionOfToken prompt with
      | some a => .ok (a, rest)
      | none => p.Action rest := by
  simp only [Player.Action]

/-- C12 (amended): `Player.Action` accepts a token and returns HIT iff the token is one of
the five spellings h, H, hit, Hit, HIT, accepts it and returns STAND iff it is one of s, S,
stand, Stand, STAND, and asks again on anything else (other mixes of upper and lower case
included). Every accepted spelling equals h or hit (s or stand) ignoring letter case. -/
theorem Player.Action_spec (p : Player) (prompt : String) (rest : List String) :
    (p.Action [prompt] = .ok (.HIT, []) ↔ prompt ∈ ["h", "H", "hit", "Hit", "HIT"]) ∧
    (p.Action [prompt] = .ok (.STAND, []) ↔ prompt ∈ ["s", "S", "stand", "Stand", "STAND"]) ∧
    (prompt ∈ ["h", "H", "hit", "Hit", "HIT"] → p.Action (prompt :: rest) = .ok (.HIT, rest)) ∧
    (prompt ∈ ["s", "S", "stand", "Stand", "STAND"] →
      p.Action (prompt :: rest) = .ok (.STAND, rest)) ∧
    (prompt ∉ ["h", "H", "hit", "Hit", "HIT"] → prompt ∉ ["s", "S", "stand", "Stand", "STAND"] →
      p.Action (prompt :: rest) = p.Action rest) ∧
    (prompt ∈ ["h", "H", "hit", "Hit", "HIT"] →
      lowerOf prompt = lowerOf "h" ∨ lowerOf prompt = lowerOf "hit") ∧
    (prompt ∈ ["s", "S", "stand", "Stand", "STAND"] →
      lowerOf prompt = lowerOf "s" ∨ lowerOf prompt = lowerOf "stand") := by
  have hdisj : prompt ∈ ["h", "H", "hit", "Hit", "HIT"] →
      prompt ∉ ["s", "S", "stand", "Stand", "STAND"] := by
    intro h
    simp only [List.mem_cons, List.mem_singleton, List.not_mem_nil, or_false] at h
    rcases h with h | h | h | h | h <;> subst h <;> decide
  refine ⟨?_, ?_, ?_, ?_, ?_, ?_, ?_⟩
  · rw [Player.Action_cons]
    by_cases h1 : prompt ∈ ["h", "H", "hit", "Hit", "HIT"]
    · simp [actionOfToken, h1]
    · by_cases h2 : prompt ∈ ["s", "S", "stand", "Stand", "STAND"]
      · simp [actionOfToken, h1, h2]
      · simp [actionOfToken, h1, h2, Player.Action]
  · rw [Player.Action_cons]
    by_cases h1 : prompt ∈ ["h", "H", "hit", "Hit", "HIT"]
    · simp [actionOfToken, h1, hdisj h1]
    · by_cases h2 : prompt ∈ ["s", "S", "stand", "Stand", "STAND"]
      · simp [actionOfToken, h1, h2]
      · simp [actionOfToken, h1, h2, Player.Action]
  · intro h1
    rw [Player.Action_cons]
    simp [actionOfToken, h1]
  · intro h2
    have h1 : prompt ∉ ["h", "H", "hit", "Hit", "HIT"] := fun h => hdisj h h2
    rw [Player.Action_cons]
    simp [actionOfToken, h1, h2]
  · intro h1 h2
    rw [Player.Action_cons]
    simp [actionOfToken, h1, h2]
  · intro h
    simp only [List.mem_cons, List.mem_singleton, List.not_mem_nil, or_false] at h
    rcases h with h | h | h | h | h <;> subst h <;> decide
  · intro h
    simp only [List.mem_cons, List.mem_singleton, List.not_mem_nil, or_false] at h
    rcases h with h | h | h | h | h <;> subst h <;> decide

/-- Witness for C12 (amended): the token Hit is accepted as HIT. -/
theorem Player.Action_spec_witness :
    "Hit" ∈ ["h", "H", "hit", "Hit", "HIT"] ∧
    (handOf []).Action ["Hit", "x"] = .ok (.HIT, ["x"]) :=
  ⟨by decide, (Player.Action_spec (handOf []) "Hit" ["x"]).2.2.1 (by decide)⟩

/-! ## Bid with an empty wallet -/

theorem int64_eq_zero (w : ℚ) (h0 : 0 ≤ w) (h1 : w < 1) : int64 w = 0 := by
  have ha : (0 : Int) ≤ int64 w := (int64_le w h0 0).2 (by simpa using h0)
  have hb : ((int64 w : Int) : ℚ) ≤ w := (int64_le w h0 (int64 w)).1 (le_refl _)
  have hc : ((int64 w : Int) : ℚ) < 1 := lt_of_le_of_lt hb h1
  have hd : int64 w < 1 := by exact_mod_cast hc
  omega

/-- C20: for every player whose wallet w satisfies 0 <= w < 1, `int64(w)` is 0 and no input
line is accepted by `Player.Bid`: every line is rejected and the next one is asked for, so
`Bid` never completes (it runs until `Scanln` fails) and neither bet nor wallet changes.
Such a wallet is reachable: from 1000, bid 999, win with a blackjack (2.5 * 999 = 2497.5,
wallet 2498.5), bid 2498: the wallet is 1/2. -/
theorem Player.Bid_stuck (p : Player) (h0 : 0 ≤ p.Wallet) (h1 : p.Wallet < 1) :
    int64 p.Wallet = 0 ∧
    (∀ a : Int, ¬ (a > 0 ∧ a ≤ int64 p.Wallet)) ∧
    (∀ prompt rest, p.Bid (prompt :: rest) = p.Bid rest) ∧
    (∀ inputs, p.Bid inputs = .error "Scanln failed") ∧
    (∀ inputs q rest, p.Bid inputs ≠ .ok (q, rest)) ∧
    (({ Hand := [], Bet := 0, Wallet := 1000 } : Player).Bid ["999"] =
        .ok ({ Hand := [], Bet := 999, Wallet := 1 }, []) ∧
      (Game.payoutPlayer (handOf ["10", "8"])
          { Hand := (handOf ["A", "K"]).Hand, Bet := 999, Wallet := 1 }).2 =
        { Hand := (handOf ["A", "K"]).Hand, Bet := 999, Wallet := 2498.5 } ∧
      ({ Hand := (handOf ["A", "K"]).Hand, Bet := 999, Wallet := 2498.5 } : Player).Bid ["2498"] =
        .ok ({ Hand := (handOf ["A", "K"]).Hand, Bet := 2498, Wallet := 1 / 2 }, [])) := by
  have hz := int64_eq_zero p.Wallet h0 h1
  have hno : ∀ a : Int, ¬ (a > 0 ∧ a ≤ int64 p.Wallet) := by
    intro a
    rw [hz]
    omega
  have hall : ∀ inputs, p.Bid inputs = .error "Scanln failed" := by
    intro inputs
    induction inputs with
    | nil => rfl
    | cons line rest ih =>
      cases hs : Scanln line with
      | none => simp only [Player.Bid_cons, hs]
      | some prompt =>
        cases ha : ParseInt prompt with
        | none => simp only [Player.Bid_cons, hs, ha, ih]
        | some a =>
          simp only [Player.Bid_cons, hs, ha]
          rw [if_neg (hno a), ih]
  have hstep : ∀ prompt rest, p.Bid (prompt :: rest) = p.Bid rest := by
    intro prompt rest
    rw [hall, hall]
  refine ⟨hz, hno, hstep, hall, ?_, ?_, ?_, ?_⟩
  · intro inputs q rest h
    rw [hall inputs] at h
    cases h
  · rw [Player.Bid_accept _ "999" "999" [] 999 (by decide) (by decide) (by decide) (by norm_num)]
    norm_num
  · have hb : (Game.payoutPlayer (handOf ["10", "8"])
        { Hand := (handOf ["A", "K"]).Hand, Bet := 999, Wallet := 1 }).1 = .blackjack := by
      decide
    have hw := Game.payoutPlayer_wallet (handOf ["10", "8"])
      { Hand := (handOf ["A", "K"]).Hand, Bet := 999, Wallet := 1 }
    have hf := Game.payoutPlayer_frame (handOf ["10", "8"])
      { Hand := (handOf ["A", "K"]).Hand, Bet := 999, Wallet := 1 }
    rw [hb] at hw
    generalize (Game.payoutPlayer (handOf ["10", "8"])
      { Hand := (handOf ["A", "K"]).Hand, Bet := 999, Wallet := 1 }).2 = q at hw hf
    rcases q with ⟨qh, qb, qw⟩
    simp only at hw hf
    obtain ⟨hf1, hf2⟩ := hf
    subst hf1 hf2 hw
    norm_num
  · rw [Player.Bid_accept _ "2498" "2498" [] 2498 (by decide) (by decide) (by decide)
      (by norm_num)]
    norm_num

/-- Witness for C20 at a wallet of 1/2. -/
theorem Player.Bid_stuck_witness :
    ((0 : ℚ) ≤ ({ Hand := [], Bet := 2498, Wallet := 1 / 2 } : Player).Wallet) ∧
    (({ Hand := [], Bet := 2498, Wallet := 1 / 2 } : Player).Wallet < 1) ∧
    ({ Hand := [], Bet := 2498, Wallet := 1 / 2 } : Player).Bid ["1", "0", "x"] =
      .error "Scanln failed" :=
  ⟨by norm_num, by norm_num,
    (Player.Bid_stuck { Hand := [], Bet := 2498, Wallet := 1 / 2 } (by norm_num)
      (by norm_num)).2.2.2.1 _⟩

/-! ## Shuffle leaves no card in place -/

theorem nodup_getElem?_inj (l : List Card) (hnd : l.Nodup) (i j : Nat) (hi : i < l.length)
    (h : l[i]? = l[j]?) : i = j := by
  have hj : j < l.length := by
    by_contra hj
    rw [List.getElem?_eq_getElem hi, List.getElem?_eq_none (by omega)] at h
    cases h
  rw [List.getElem?_eq_getElem hi, List.getElem?_eq_getElem hj] at h
  exact (hnd.getElem_inj_iff).1 (Option.some.inj h)

/-- Invariant of the pass of `Deck.Shuffle`: after the iterations 0..m-1 every position
below m holds a card other than its original one, and every position from m on holds its
original card or the original card of a position below m. -/
theorem Deck.shuffle_prefix (rnd : Nat → Nat) (orig : List Card) (hnd : orig.Nodup) :
    ∀ m, m + 1 ≤ orig.length →
    ∃ cur, (List.range m).foldlM (Deck.shuffleStep rnd ((orig.length : Int) - 1)) orig = .ok cur ∧
      cur.length = orig.length ∧
      (∀ q, q < m → cur[q]? ≠ orig[q]?) ∧
      (∀ q, m ≤ q → q < orig.length → cur[q]? = orig[q]? ∨ ∃ p, p < m ∧ cur[q]? = orig[p]?) ∧
      (0 < m → m + 1 = orig.length → ∃ p, p < m ∧ cur[m]? = orig[p]?) := by
  intro m
  induction m with
  | zero =>
    intro _
    exact ⟨orig, rfl, rfl, fun q hq => by omega, fun q _ _ => Or.inl rfl, fun h _ => by omega⟩
  | succ m ih =>
    intro hm
    obtain ⟨cur, hfold, hlen, hA, hB, _⟩ := ih (by omega)
    obtain ⟨a, b, ha, hb, hstep⟩ :=
      Deck.shuffleStep_eq rnd orig.length cur m hlen (by omega)
    have hjlt : rnd m % (orig.length - 1 - m) + m + 1 < orig.length := by
      have := Nat.mod_lt (rnd m) (show 0 < orig.length - 1 - m by omega)
      omega
    have hmj : m < rnd m % (orig.length - 1 - m) + m + 1 := by omega
    generalize rnd m % (orig.length - 1 - m) + m + 1 = j at ha hb hstep hjlt hmj
    refine ⟨(cur.set m b).set j a, ?_, by simp [hlen], ?_, ?_, ?_⟩
    · rw [List.range_succ, List.foldlM_append, hfold]
      simp only [bind, Except.bind, List.foldlM_cons, List.foldlM_nil, hstep]
      rfl
    · intro q hq
      by_cases hqm : q = m
      · subst hqm
        rw [List.getElem?_set_ne (by omega), List.getElem?_set_self (by omega), ← hb]
        intro hcon
        rcases hB j (by omega) hjlt with h | ⟨p, hp, h⟩
        · have := nodup_getElem?_inj orig hnd j q hjlt (h.symm.trans hcon)
          omega
        · have := nodup_getElem?_inj orig hnd p q (by omega) (h.symm.trans hcon)
          omega
      · rw [List.getElem?_set_ne (by omega), List.getElem?_set_ne (by omega)]
        exact hA q (by omega)
    · intro q hq hqn
      by_cases hqj : q = j
      · subst hqj
        rw [List.getElem?_set_self (by simp; omega), ← ha]
        rcases hB m (le_refl _) (by omega) with h | ⟨p, hp, h⟩
        · exact Or.inr ⟨m, by omega, h⟩
        · exact Or.inr ⟨p, by omega, h⟩
      · rw [List.getElem?_set_ne (Ne.symm hqj), List.getElem?_set_ne (by omega)]
        rcases hB q (by omega) hqn with h | ⟨p, hp, h⟩
        · exact Or.inl h
        · exact Or.inr ⟨p, by omega, h⟩
    · intro _ hlast
      have hj : j = m + 1 := by omega
      subst hj
      rw [List.getElem?_set_self (by simp; omega), ← ha]
      rcases hB m (le_refl _) (by omega) with h | ⟨p, hp, h⟩
      · exact ⟨m, by omega, h⟩
      · exact ⟨p, by omega, h⟩

theorem Deck.Shuffle_eq_fold (rnd : Nat → Nat) (d : Deck) (res : List Card)
    (h : (List.range (d.Cards.length - 1)).foldlM
      (Deck.shuffleStep rnd ((d.Cards.length : Int) - 1)) d.Cards = .ok res) :
    Deck.Shuffle rnd d = .ok { Cards := res } := by
  have hr : ((d.Cards.length : Int) - 1).toNat = d.Cards.length - 1 := by omega
  simp only [Deck.Shuffle, hr, h, bind, Except.bind, pure, Except.pure]

/-- C19: on a deck of n >= 2 pairwise distinct cards, whatever the outcomes of the random
source, `Deck.Shuffle` completes (every index it uses is within bounds) and leaves no card at
its original position, so the result is a permutation without fixed points and differs from
the order before; the swap partner of position idx is always one of idx+1..n-1. On an empty
or one-card deck `Shuffle` changes nothing. -/
theorem Deck.Shuffle_derangement (rnd : Nat → Nat) (d : Deck) :
    (∃ res, Deck.Shuffle rnd d = .ok res) ∧
    (2 ≤ d.Cards.length → d.Cards.Nodup →
      ∃ res, Deck.Shuffle rnd d = .ok res ∧ res.Cards.Perm d.Cards ∧
        (∀ i, i < d.Cards.length → res.Cards[i]? ≠ d.Cards[i]?) ∧ res.Cards ≠ d.Cards) ∧
    (∀ idx : Nat, idx + 1 < d.Cards.length →
      ∃ j : Nat, Deck.randIdx rnd ((d.Cards.length : Int) - 1) idx = .ok (j : Int) ∧
        idx + 1 ≤ j ∧ j ≤ d.Cards.length - 1) ∧
    (d.Cards.length ≤ 1 → Deck.Shuffle rnd d = .ok d) := by
  have hfold := Deck.shuffle_fold rnd d.Cards.length (List.range (d.Cards.length - 1)) d.Cards rfl
    (fun i hi => by
      have := List.mem_range.1 hi
      omega)
  refine ⟨?_, ?_, ?_, ?_⟩
  · obtain ⟨res, hres, _⟩ := hfold
    exact ⟨_, Deck.Shuffle_eq_fold rnd d res hres⟩
  · intro hn hnd
    obtain ⟨cur, hcur, hlen, hA, hB, hC⟩ :=
      Deck.shuffle_prefix rnd d.Cards hnd (d.Cards.length - 1) (by omega)
    obtain ⟨res, hres, hperm⟩ := hfold
    have hrc : res = cur := by
      rw [hcur] at hres
      exact (Except.ok.inj hres).symm
    subst hrc
    have hfix : ∀ i, i < d.Cards.length → res[i]? ≠ d.Cards[i]? := by
      intro i hi
      by_cases hlast : i < d.Cards.length - 1
      · exact hA i hlast
      · have hi2 : i = d.Cards.length - 1 := by omega
        obtain ⟨p, hp, hpe⟩ := hC (by omega) (by omega)
        rw [hi2, hpe]
        intro hcon
        have := nodup_getElem?_inj d.Cards hnd p (d.Cards.length - 1) (by omega) hcon
        omega
    refine ⟨_, Deck.Shuffle_eq_fold rnd d res hcur, hperm, hfix, ?_⟩
    intro hcon
    have hcon2 : res = d.Cards := hcon
    exact hfix 0 (by omega) (by rw [hcon2])
  · intro idx hidx
    obtain ⟨hr, h1, h2⟩ := Deck.randIdx_eq rnd d.Cards.length idx hidx
    exact ⟨_, hr, by omega, by omega⟩
  · intro hn
    have hr : ((d.Cards.length : Int) - 1).toNat = 0 := by omega
    simp [Deck.Shuffle, hr, pure, Except.pure, bind, Except.bind]

/-- Witness for C19 at the freshly initialized deck of 52 cards. -/
theorem Deck.Shuffle_derangement_witness :
    (2 ≤ (Deck.Initialize { Cards := [] }).Cards.length) ∧
    (Deck.Initialize { Cards := [] }).Cards.Nodup ∧
    ∃ res, Deck.Shuffle (fun k => 7 * k + 3) (Deck.Initialize { Cards := [] }) = .ok res ∧
      res.Cards.Perm (Deck.Initialize { Cards := [] }).Cards ∧
      (∀ i, i < (Deck.Initialize { Cards := [] }).Cards.length →
        res.Cards[i]? ≠ (Deck.Initialize { Cards := [] }).Cards[i]?) ∧
      res.Cards ≠ (Deck.Initialize { Cards := [] }).Cards :=
  ⟨by decide, by decide,
    (Deck.Shuffle_derangement (fun k => 7 * k + 3) (Deck.Initialize { Cards := [] })).2.1
      (by decide) (by decide)⟩

/-! ## Player turn -/

theorem Player.Action_used (p : Player) :
    ∀ (inputs : List String) (a : Blackjack.Action) (rest : List String),
    p.Action inputs = .ok (a, rest) →
    ∃ used, inputs = used ++ rest ∧ used.filterMap actionOfToken = [a] := by
  intro inputs
  induction inputs with
  | nil => intro a rest h; cases h
  | cons prompt tl ih =>
    intro a rest h
    rw [Player.Action_cons] at h
    cases ht : actionOfToken prompt with
    | none =>
      rw [ht] at h
      obtain ⟨used, hu, hf⟩ := ih a rest h
      exact ⟨prompt :: used, by simp [hu], by simp [List.filterMap_cons, ht, hf]⟩
    | some b =>
      rw [ht] at h
      have h2 : (b, tl) = (a, rest) := Except.ok.inj h
      obtain ⟨rfl, rfl⟩ := Prod.mk.inj h2
      exact ⟨[prompt], rfl, by simp [List.filterMap_cons, ht]⟩

theorem Player.Action_hand (p q : Player) (inputs : List String) :
    p.Action inputs = q.Action inputs := by
  induction inputs with
  | nil => rfl
  | cons prompt tl ih => rw [Player.Action_cons, Player.Action_cons, ih]

theorem Player.Score_le_of_two (p : Player) (h : p.Hand.length ≤ 2) : p.Score ≤ 21 := by
  have hc : ∀ c : Card, (c.Rank = "A" ∧ c.Score = 11) ∨ (c.Rank ≠ "A" ∧ c.Score ≤ 10) := by
    intro c
    by_cases hA : c.Rank = "A"
    · left; exact ⟨hA, by simp [Card.Score, hA]⟩
    · right
      refine ⟨hA, ?_⟩
      unfold Card.Score
      split_ifs <;> omega
  rcases p with ⟨hand, bet, wallet⟩
  match hand, h with
  | [], _ => simp [Player.Score, Player.scoreLoop, Player.aceLoop]
  | _ :: _ :: _ :: _, h3 => simp at h3
  | [c], _ =>
    rcases hc c with ⟨h1, h2⟩ | ⟨h1, h2⟩
    · simp [Player.Score, Player.scoreLoop, h1, h2, Player.aceLoop, SCORE_LIMIT]
    · simp only [Player.Score, Player.scoreLoop, h1, if_false, zero_add, Player.aceLoop]
      omega
  | [c1, c2], _ =>
    rw [Player.Score_pair _ c1 c2 rfl]
    rcases hc c1 with ⟨h1, h2⟩ | ⟨h1, h2⟩ <;> rcases hc c2 with ⟨h3, h4⟩ | ⟨h3, h4⟩ <;>
      simp only [h1, h2, h3, h4, if_true, if_false, Player.aceLoop, SCORE_LIMIT] <;>
      (try split_ifs) <;> omega

theorem Game.playerLoop_stand (p : Player) (deck : List Card) (inputs rest : List String)
    (h : p.Action inputs = .ok (.STAND, rest)) :
    Game.playerLoop p deck inputs = .ok (p, { Cards := deck }, rest) := by
  cases deck <;> simp [Game.playerLoop, h]

theorem Game.playerLoop_hit_empty (p : Player) (inputs rest : List String)
    (h : p.Action inputs = .ok (.HIT, rest)) :
    Game.playerLoop p [] inputs = .error "Deck is empty" := by
  simp [Game.playerLoop, h]

theorem Game.playerLoop_hit_bust (p : Player) (c : Card) (cs : List Card)
    (inputs rest : List String) (h : p.Action inputs = .ok (.HIT, rest))
    (hs : (p.Add c).Score > 21) :
    Game.playerLoop p (c :: cs) inputs = .ok (p.Add c, { Cards := cs }, rest) := by
  simp [Game.playerLoop, h, SCORE_LIMIT, hs]

theorem Game.playerLoop_hit_more (p : Player) (c : Card) (cs : List Card)
    (inputs rest : List String) (h : p.Action inputs = .ok (.HIT, rest))
    (hs : (p.Add c).Score ≤ 21) :
    Game.playerLoop p (c :: cs) inputs = Game.playerLoop (p.Add c) cs rest := by
  have hs2 : ¬ (p.Add c).Score > 21 := not_lt.2 hs
  simp [Game.playerLoop, h, SCORE_LIMIT, hs2]

theorem Game.playerLoop_error (p : Player) (deck : List Card) (inputs : List String) (e : String)
    (h : p.Action inputs = .error e) :
    Game.playerLoop p deck inputs = .error e := by
  cases deck <;> simp [Game.playerLoop, h]

theorem Game.playerLoop_spec : ∀ (deck : List Card) (p : Player) (inputs : List String)
    (q : Player) (d : Blackjack.Deck) (rest : List String),
    Game.playerLoop p deck inputs = .ok (q, d, rest) →
    ∃ (k : Nat) (used : List String), k ≤ deck.length ∧ inputs = used ++ rest ∧
      q = { p with Hand := p.Hand ++ deck.take k } ∧ d = { Cards := deck.drop k } ∧
      (∀ j, 0 < j → j < k → ({ p with Hand := p.Hand ++ deck.take j } : Player).Score ≤ 21) ∧
      (used.filterMap actionOfToken =
          List.replicate k Blackjack.Action.HIT ++ [Blackjack.Action.STAND] ∨
        (0 < k ∧ used.filterMap actionOfToken = List.replicate k Blackjack.Action.HIT ∧
          q.Score > 21)) := by
  intro deck
  induction deck with
  | nil =>
    intro p inputs q d rest h
    cases hA : p.Action inputs with
    | error e => rw [Game.playerLoop_error p _ inputs e hA] at h; cases h
    | ok r =>
      obtain ⟨a, rest1⟩ := r
      cases a with
      | HIT => rw [Game.playerLoop_hit_empty p inputs rest1 hA] at h; cases h
      | STAND =>
        rw [Game.playerLoop_stand p _ inputs rest1 hA] at h
        have h2 := Except.ok.inj h
        simp only [Prod.mk.injEq] at h2
        obtain ⟨rfl, rfl, rfl⟩ := h2
        obtain ⟨used, hu, hf⟩ := Player.Action_used p inputs _ _ hA
        exact ⟨0, used, le_refl _, hu, by simp, rfl, fun j h1 h2 => by omega,
          Or.inl (by simpa using hf)⟩
  | cons c cs ih =>
    intro p inputs q d rest h
    cases hA : p.Action inputs with
    | error e => rw [Game.playerLoop_error p _ inputs e hA] at h; cases h
    | ok r =>
      obtain ⟨a, rest1⟩ := r
      obtain ⟨used1, hu1, hf1⟩ := Player.Action_used p inputs _ _ hA
      cases a with
      | STAND =>
        rw [Game.playerLoop_stand p _ inputs rest1 hA] at h
        have h2 := Except.ok.inj h
        simp only [Prod.mk.injEq] at h2
        obtain ⟨rfl, rfl, rfl⟩ := h2
        exact ⟨0, used1, Nat.zero_le _, hu1, by simp, rfl, fun j h1 h2 => by omega,
          Or.inl (by simpa using hf1)⟩
      | HIT =>
        by_cases hs : (p.Add c).Score > 21
        · rw [Game.playerLoop_hit_bust p c cs inputs rest1 hA hs] at h
          have h2 := Except.ok.inj h
          simp only [Prod.mk.injEq] at h2
          obtain ⟨rfl, rfl, rfl⟩ := h2
          refine ⟨1, used1, by simp, hu1, by simp [Player.Add], by simp,
            fun j h1 h2 => by omega, Or.inr ⟨by omega, by simpa using hf1, hs⟩⟩
        · rw [Game.playerLoop_hit_more p c cs inputs rest1 hA (not_lt.1 hs)] at h
          obtain ⟨k, used, hk, hu, hq, hd, hsc, hdec⟩ := ih (p.Add c) rest1 q d rest h
          have hadd : ∀ j, ({ p.Add c with Hand := (p.Add c).Hand ++ cs.take j } : Player) =
              { p with Hand := p.Hand ++ (c :: cs).take (j + 1) } := by
            intro j; simp [Player.Add]
          refine ⟨k + 1, used1 ++ used, by simpa using hk, by rw [hu1, hu, List.append_assoc],
            by rw [hq, hadd], by simpa using hd, ?_, ?_⟩
          · intro j hj0 hjk
            cases j with
            | zero => omega
            | succ j =>
              rw [← hadd j]
              by_cases hj : j = 0
              · subst hj
                simpa using not_lt.1 hs
              · exact hsc j (by omega) (by omega)
          · rw [List.filterMap_append, hf1, List.replicate_succ]
            rcases hdec with h1 | ⟨h1, h2, h3⟩
            · exact Or.inl (by rw [h1]; rfl)
            · exact Or.inr ⟨by omega, by rw [h2]; rfl, h3⟩

theorem set_of_getElem? {α : Type} : ∀ (l : List α) (i : Nat) (a : α), l[i]? = some a →
    l.set i a = l := by
  intro l
  induction l with
  | nil => intro i a h; simp at h
  | cons x xs ih =>
    intro i a h
    cases i with
    | zero =>
      have : x = a := by simpa using h
      simp [this]
    | succ n =>
      have hn : xs[n]? = some a := by simpa using h
      simp [ih n a hn]

theorem Game.Round_player_eq (g : Game) (playerIdx : Int) (inputs : List String) (p : Player)
    (hidx : 0 ≤ playerIdx) (hp : g.Players[playerIdx.toNat]? = some p)
    (hd : 2 ≤ g.Dealer.Hand.length) :
    g.Round playerIdx inputs =
      match Game.playerLoop p g.Deck.Cards inputs with
      | .error err => .error err
      | .ok (player, deck, rest) =>
        .ok ({ g with Players := g.Players.set playerIdx.toNat player, Deck := deck }, rest) := by
  have hneg : ¬ playerIdx < 0 := not_lt.2 hidx
  have h1 : g.Dealer.Hand[1]? = some g.Dealer.Hand[1] := List.getElem?_eq_getElem (by omega)
  simp only [Game.Round, hneg, if_false, hp, h1]

/-- C18: a player turn (`Game.Round` with `playerIdx >= 0`, for the player p at that index and
a dealer showing two cards). A completed turn took the first k cards of the deck, in order,
onto the end of p's hand, for k HIT decisions followed by a STAND or ended by the k-th HIT
taking the score over 21; after every HIT but the last the score was at most 21, so, from a
start of at most 21 (every hand of at most two cards), no card was drawn at a score above 21.
The dealer, the other players and p's bet and wallet are unchanged. Step by step: STAND ends
the turn and changes nothing, a HIT that takes the score over 21 ends it with the top card
moved to the hand, any other HIT moves the top card and the turn goes on. -/
theorem Game.Round_player (g : Game) (playerIdx : Int) (inputs : List String) (p : Player)
    (hidx : 0 ≤ playerIdx) (hp : g.Players[playerIdx.toNat]? = some p)
    (hd : 2 ≤ g.Dealer.Hand.length) :
    (∀ g2 rest, g.Round playerIdx inputs = .ok (g2, rest) →
      ∃ (k : Nat) (used : List String), k ≤ g.Deck.Cards.length ∧ inputs = used ++ rest ∧
        g2 = { g with
                Players := g.Players.set playerIdx.toNat
                  { p with Hand := p.Hand ++ g.Deck.Cards.take k },
                Deck := { Cards := g.Deck.Cards.drop k } } ∧
        (used.filterMap actionOfToken =
            List.replicate k Blackjack.Action.HIT ++ [Blackjack.Action.STAND] ∨
          (0 < k ∧ used.filterMap actionOfToken = List.replicate k Blackjack.Action.HIT ∧
            ({ p with Hand := p.Hand ++ g.Deck.Cards.take k } : Player).Score > 21)) ∧
        (∀ j, 0 < j → j < k →
          ({ p with Hand := p.Hand ++ g.Deck.Cards.take j } : Player).Score ≤ 21) ∧
        (p.Score ≤ 21 → ∀ j, j < k →
          ({ p with Hand := p.Hand ++ g.Deck.Cards.take j } : Player).Score ≤ 21) ∧
        g2.Dealer = g.Dealer ∧
        (∀ i, i ≠ playerIdx.toNat → g2.Players[i]? = g.Players[i]?) ∧
        (g2.Players[playerIdx.toNat]?).map (fun x => (x.Bet, x.Wallet)) =
          some (p.Bet, p.Wallet)) ∧
    (∀ rest, p.Action inputs = .ok (.STAND, rest) → g.Round playerIdx inputs = .ok (g, rest)) ∧
    (∀ rest c cs, p.Action inputs = .ok (.HIT, rest) → g.Deck.Cards = c :: cs →
      (p.Add c).Score > 21 →
      g.Round playerIdx inputs =
        .ok ({ g with Players := g.Players.set playerIdx.toNat (p.Add c),
                      Deck := { Cards := cs } }, rest)) ∧
    (∀ rest c cs, p.Action inputs = .ok (.HIT, rest) → g.Deck.Cards = c :: cs →
      (p.Add c).Score ≤ 21 →
      g.Round playerIdx inputs =
        Game.Round { g with Players := g.Players.set playerIdx.toNat (p.Add c),
                            Deck := { Cards := cs } } playerIdx rest) ∧
    (∀ rest, p.Action inputs = .ok (.HIT, rest) → g.Deck.Cards = [] →
      g.Round playerIdx inputs = .error "Deck is empty") ∧
    (∀ e, p.Action inputs = .error e → g.Round playerIdx inputs = .error e) ∧
    (p.Hand.length ≤ 2 → p.Score ≤ 21) := by
  have hR := Game.Round_player_eq g playerIdx inputs p hidx hp hd
  have hlt : playerIdx.toNat < g.Players.length := by
    by_contra hcon
    rw [List.getElem?_eq_none (by omega)] at hp
    cases hp
  refine ⟨?_, ?_, ?_, ?_, ?_, ?_, Player.Score_le_of_two p⟩
  · intro g2 rest h
    rw [hR] at h
    cases hL : Game.playerLoop p g.Deck.Cards inputs with
    | error e => rw [hL] at h; cases h
    | ok r =>
      obtain ⟨q, d, rest1⟩ := r
      rw [hL] at h
      have h2 := Except.ok.inj h
      simp only [Prod.mk.injEq] at h2
      obtain ⟨hg, hrest⟩ := h2
      subst hrest
      obtain ⟨k, used, hk, hu, hq, hdd, hsc, hdec⟩ :=
        Game.playerLoop_spec g.Deck.Cards p inputs q d rest1 hL
      subst hq hdd
      refine ⟨k, used, hk, hu, hg.symm, hdec, hsc, ?_, ?_, ?_, ?_⟩
      · intro hp21 j hj
        by_cases hj0 : j = 0
        · subst hj0
          simpa using hp21
        · exact hsc j (by omega) hj
      · rw [← hg]
      · intro i hi
        rw [← hg]
        exact List.getElem?_set_ne (Ne.symm hi)
      · rw [← hg]
        simp only [List.getElem?_set_self hlt, Option.map_some']
  · intro rest h
    rw [hR, Game.playerLoop_stand p _ inputs rest h]
    simp only [set_of_getElem? g.Players _ p hp]
  · intro rest c cs h hdeck hs
    rw [hR, hdeck, Game.playerLoop_hit_bust p c cs inputs rest h hs]
  · intro rest c cs h hdeck hs
    rw [hR, hdeck, Game.playerLoop_hit_more p c cs inputs rest h hs]
    have h2 := Game.Round_player_eq
      { g with Players := g.Players.set playerIdx.toNat (p.Add c), Deck := { Cards := cs } }
      playerIdx rest (p.Add c) hidx (by simp only [List.getElem?_set_self hlt]) hd
    rw [h2]
    simp only [List.set_set]
  · intro rest h hdeck
    rw [hR, hdeck, Game.playerLoop_hit_empty p inputs rest h]
  · intro e h
    rw [hR, Game.playerLoop_error p _ inputs e h]

/-- Witness for C18: player 1 of `playerTable` holds {5,6}; h draws the 9 (20), x is asked
again, hit draws the K (30) and ends the turn; the token s is left for the next prompt. -/
theorem Game.Round_player_witness :
    ((0 : Int) ≤ 0) ∧ playerTable.Players[(0 : Int).toNat]? = some (handOf ["5", "6"]) ∧
    2 ≤ playerTable.Dealer.Hand.length ∧
    playerTable.Round 0 ["h", "x", "hit", "s"] =
      .ok ({ playerTable with
              Players := [{ handOf ["5", "6"] with
                Hand := (handOf ["5", "6"]).Hand ++
                  [{ Rank := "9", Suit := "Clubs" }, { Rank := "K", Suit := "Diamonds" }] },
                handOf ["A", "K"]],
              Deck := { Cards := [{ Rank := "2", Suit := "Spades" }] } }, ["s"]) ∧
    (∃ (k : Nat) (used : List String), k ≤ playerTable.Deck.Cards.length ∧
      ["h", "x", "hit", "s"] = used ++ ["s"] ∧
      (used.filterMap actionOfToken =
          List.replicate k Blackjack.Action.HIT ++ [Blackjack.Action.STAND] ∨
        (0 < k ∧ used.filterMap actionOfToken = List.replicate k Blackjack.Action.HIT ∧
          ({ handOf ["5", "6"] with
            Hand := (handOf ["5", "6"]).Hand ++ playerTable.Deck.Cards.take k } : Player).Score
              > 21))) :=
  ⟨by decide, rfl, by decide, rfl, by
    obtain ⟨k, used, hk, hu, _, hdec, _⟩ :=
      (Game.Round_player playerTable 0 ["h", "x", "hit", "s"] (handOf ["5", "6"]) (by decide)
        rfl (by decide)).1 _ ["s"] rfl
    exact ⟨k, used, hk, hu, hdec⟩⟩

/-! ## Rounds -/

theorem Game.Continue_keep : ∀ (inputs : List String) (keep : Bool) (rest : List String),
    Game.Continue inputs = .returned keep rest → keep = true := by
  intro inputs
  induction inputs with
  | nil => intro keep rest h; cases h
  | cons prompt tl ih =>
    intro keep rest h
    unfold Game.Continue at h
    split_ifs at h with h1 h2
    · cases h; rfl
    · exact ih keep rest h

theorem Game.finishRound_not_returned (again : Game → Nat → List String → Ending × List Event)
    (hagain : ∀ g pos inputs g2 pos2 inputs2, (again g pos inputs).1 ≠ .returned g2 pos2 inputs2)
    (g : Game) (pos : Nat) (inputs : List String) (g2 : Game) (pos2 : Nat)
    (inputs2 : List String) :
    (Game.finishRound again g pos inputs).1 ≠ .returned g2 pos2 inputs2 := by
  unfold Game.finishRound
  rcases Game.turnsLoop (List.range g.Players.length) g inputs with ⟨r, evs⟩
  cases r with
  | error e => simp
  | ok v =>
    obtain ⟨g1, inputs1⟩ := v
    simp only
    cases g1.Round (-1) inputs1 with
    | error e => simp
    | ok w =>
      obtain ⟨g3, inputs3⟩ := w
      simp only
      cases hC : Game.Continue inputs3 with
      | panic msg => simp
      | exit => simp
      | returned keep inputs4 =>
        have hk := Game.Continue_keep inputs3 keep inputs4 hC
        subst hk
        simp only [if_true]
        exact hagain _ _ _ _ _ _

theorem Game.beginLoop_not_returned (rnd : Nat → Nat) : ∀ (fuel : Nat) (g : Game) (pos : Nat)
    (inputs : List String) (g2 : Game) (pos2 : Nat) (inputs2 : List String),
    (Game.beginLoop rnd fuel g pos inputs).1 ≠ .returned g2 pos2 inputs2 := by
  intro fuel
  induction fuel with
  | zero => intro g pos inputs g2 pos2 inputs2; simp [Game.beginLoop]
  | succ fuel ih =>
    intro g pos inputs g2 pos2 inputs2
    have hfin := Game.finishRound_not_returned (Game.beginLoop rnd fuel) ih
    unfold Game.beginLoop
    cases Blackjack.Deck.Shuffle (fun k => rnd (pos + k)) g.Deck with
    | error e => simp
    | ok deck =>
      simp only
      cases Game.bidLoop g.Players inputs with
      | error e => simp
      | ok v =>
        obtain ⟨players, inputs1⟩ := v
        simp only
        cases Game.dealLoop players deck with
        | error e => simp
        | ok w =>
          obtain ⟨players2, deck2⟩ := w
          simp only
          rcases g.Dealer.InitialHand deck2 2 with ⟨err, dealer, deck3⟩
          cases err with
          | some e => simp
          | none =>
            simp only
            split_ifs with hbj
            · cases hC : Game.Continue inputs1 with
              | panic msg => simp
              | exit => simp
              | returned keep inputs3 =>
                have hk := Game.Continue_keep inputs1 keep inputs3 hC
                subst hk
                simp only [if_true]
                rcases hr : Game.beginLoop rnd fuel
                  (Game.Payout { Deck := deck3, Dealer := dealer, Players := players2 })
                  (pos + (g.Deck.Cards.length - 1)) inputs3 with ⟨e, evs⟩
                cases e with
                | returned g4 pos4 inputs4 =>
                  exact absurd (congrArg Prod.fst hr) (ih _ _ _ _ _ _)
                | exited => simp
                | panicked m => simp
                | outOfFuel => simp
            · exact hfin _ _ _ _ _ _

theorem Game.beginLoop_blackjack (rnd : Nat → Nat) (fuel : Nat) (g : Game) (pos : Nat)
    (inputs inputs1 : List String) (deck deck2 deck3 : Blackjack.Deck) (players players2 : List Player)
    (dealer : Player)
    (hs : Blackjack.Deck.Shuffle (fun k => rnd (pos + k)) g.Deck = .ok deck)
    (hb : Game.bidLoop g.Players inputs = .ok (players, inputs1))
    (hdl : Game.dealLoop players deck = .ok (players2, deck2))
    (hdd : g.Dealer.InitialHand deck2 2 = (none, dealer, deck3))
    (hbj : dealer.IsBlackjack = true) :
    Game.beginLoop rnd (fuel + 1) g pos inputs =
      match Game.Continue inputs1 with
      | .panic msg =>
        (.panicked msg,
          [Event.shuffled g.Deck deck, Event.bids { g with Deck := deck, Players := players },
            Event.dealt { Deck := deck3, Dealer := dealer, Players := players2 },
            Event.payout { Deck := deck3, Dealer := dealer, Players := players2 }
              (Game.Payout { Deck := deck3, Dealer := dealer, Players := players2 })])
      | .exit =>
        (.exited,
          [Event.shuffled g.Deck deck, Event.bids { g with Deck := deck, Players := players },
            Event.dealt { Deck := deck3, Dealer := dealer, Players := players2 },
            Event.payout { Deck := deck3, Dealer := dealer, Players := players2 }
              (Game.Payout { Deck := deck3, Dealer := dealer, Players := players2 })])
      | .returned _ inputs2 =>
        ((Game.beginLoop rnd fuel
            (Game.Payout { Deck := deck3, Dealer := dealer, Players := players2 })
            (pos + (g.Deck.Cards.length - 1)) inputs2).1,
          [Event.shuffled g.Deck deck, Event.bids { g with Deck := deck, Players := players },
            Event.dealt { Deck := deck3, Dealer := dealer, Players := players2 },
            Event.payout { Deck := deck3, Dealer := dealer, Players := players2 }
              (Game.Payout { Deck := deck3, Dealer := dealer, Players := players2 }),
            Event.newRound] ++
          (Game.beginLoop rnd fuel
            (Game.Payout { Deck := deck3, Dealer := dealer, Players := players2 })
            (pos + (g.Deck.Cards.length - 1)) inputs2).2) := by
  simp only [Game.beginLoop, hs, hb, hdl, hdd, hbj, if_true]
  cases hC : Game.Continue inputs1 with
  | panic msg => simp
  | exit => simp
  | returned keep inputs2 =>
    have hk := Game.Continue_keep inputs1 keep inputs2 hC
    subst hk
    simp only [if_true]
    rcases hr : Game.beginLoop rnd fuel
      (Game.Payout { Deck := deck3, Dealer := dealer, Players := players2 })
      (pos + (g.Deck.Cards.length - 1)) inputs2 with ⟨e, evs⟩
    cases e with
    | returned g4 pos4 inputs4 =>
      exact absurd (congrArg Prod.fst hr) (Game.beginLoop_not_returned rnd _ _ _ _ _ _ _)
    | exited => simp
    | panicked m => simp
    | outOfFuel => simp

theorem Game.beginLoop_normal (rnd : Nat → Nat) (fuel : Nat) (g : Game) (pos : Nat)
    (inputs inputs1 : List String) (deck deck2 deck3 : Blackjack.Deck) (players players2 : List Player)
    (dealer : Player)
    (hs : Blackjack.Deck.Shuffle (fun k => rnd (pos + k)) g.Deck = .ok deck)
    (hb : Game.bidLoop g.Players inputs = .ok (players, inputs1))
    (hdl : Game.dealLoop players deck = .ok (players2, deck2))
    (hdd : g.Dealer.InitialHand deck2 2 = (none, dealer, deck3))
    (hbj : dealer.IsBlackjack = false) :
    Game.beginLoop rnd (fuel + 1) g pos inputs =
      ((Game.finishRound (Game.beginLoop rnd fuel)
          { Deck := deck3, Dealer := dealer, Players := players2 }
          (pos + (g.Deck.Cards.length - 1)) inputs1).1,
        [Event.shuffled g.Deck deck, Event.bids { g with Deck := deck, Players := players },
          Event.dealt { Deck := deck3, Dealer := dealer, Players := players2 }] ++
        (Game.finishRound (Game.beginLoop rnd fuel)
          { Deck := deck3, Dealer := dealer, Players := players2 }
          (pos + (g.Deck.Cards.length - 1)) inputs1).2) := by
  simp [Game.beginLoop, hs, hb, hdl, hdd, hbj]

theorem Game.finishRound_eq (again : Game → Nat → List String → Ending × List Event)
    (g g1 g2 : Game) (pos : Nat) (inputs inputs1 inputs2 : List String) (evs : List Event)
    (ht : Game.turnsLoop (List.range g.Players.length) g inputs = (.ok (g1, inputs1), evs))
    (hd : g1.Round (-1) inputs1 = .ok (g2, inputs2)) :
    Game.finishRound again g pos inputs =
      match Game.Continue inputs2 with
      | .panic msg => (.panicked msg, evs ++ [Event.dealerTurn g2, Event.payout g2 g2.Payout])
      | .exit => (.exited, evs ++ [Event.dealerTurn g2, Event.payout g2 g2.Payout])
      | .returned _ inputs3 =>
        ((again g2.Payout pos inputs3).1,
          evs ++ [Event.dealerTurn g2, Event.payout g2 g2.Payout, Event.newRound] ++
            (again g2.Payout pos inputs3).2) := by
  simp only [Game.finishRound, ht, hd]
  cases hC : Game.Continue inputs2 with
  | panic msg => simp
  | exit => simp
  | returned keep inputs3 =>
    have hk := Game.Continue_keep inputs2 keep inputs3 hC
    subst hk
    simp

theorem Game.beginLoop_head (rnd : Nat → Nat) (fuel : Nat) (g : Game) (pos : Nat)
    (inputs : List String) :
    ∃ deck, Blackjack.Deck.Shuffle (fun k => rnd (pos + k)) g.Deck = .ok deck ∧
      deck.Cards.Perm g.Deck.Cards ∧
      (Game.beginLoop rnd (fuel + 1) g pos inputs).2.head? = some (Event.shuffled g.Deck deck) := by
  obtain ⟨res, hres, hperm⟩ := Blackjack.Deck.shuffle_fold (fun k => rnd (pos + k)) g.Deck.Cards.length
    (List.range (g.Deck.Cards.length - 1)) g.Deck.Cards rfl (fun i hi => by
      have := List.mem_range.1 hi
      omega)
  have hs := Blackjack.Deck.Shuffle_eq_fold (fun k => rnd (pos + k)) g.Deck res hres
  refine ⟨{ Cards := res }, hs, hperm, ?_⟩
  simp only [Game.beginLoop, hs]
  cases Game.bidLoop g.Players inputs with
  | error e => simp
  | ok v =>
    obtain ⟨players, inputs1⟩ := v
    simp only
    cases Game.dealLoop players { Cards := res } with
    | error e => simp
    | ok w =>
      obtain ⟨players2, deck2⟩ := w
      simp only
      rcases g.Dealer.InitialHand deck2 2 with ⟨err, dealer, deck3⟩
      cases err with
      | some e => simp
      | none =>
        simp only
        split_ifs with hbj
        · cases Game.Continue inputs1 with
          | panic msg => simp
          | exit => simp
          | returned keep inputs3 =>
            simp only
            split_ifs
            · rcases Game.beginLoop rnd fuel
                (Game.Payout { Deck := deck3, Dealer := dealer, Players := players2 })
                (pos + (g.Deck.Cards.length - 1)) inputs3 with ⟨e, evs⟩
              cases e <;> simp
            · simp
        · simp

/-! ## The deck bounds the number of rounds -/

theorem Player.InitialHand_two (p q : Player) (d d1 : Deck)
    (h : p.InitialHand d 2 = (none, q, d1)) :
    2 ≤ d.Cards.length ∧ q = { p with Hand := d.Cards.take 2 } ∧ d1 = { Cards := d.Cards.drop 2 } := by
  by_cases hlen : 2 ≤ d.Cards.length
  · have h2 := Player.initialHandLoop_ok 2 { p with Hand := [] } d hlen
    have h3 : p.InitialHand d 2 = Player.initialHandLoop 2 { p with Hand := [] } d := rfl
    rw [h3, h2] at h
    simp only [Prod.mk.injEq, true_and, List.nil_append] at h
    exact ⟨hlen, h.1.symm, h.2.symm⟩
  · have h2 := Player.initialHandLoop_short 2 { p with Hand := [] } d (by omega)
    have h3 : p.InitialHand d 2 = Player.initialHandLoop 2 { p with Hand := [] } d := rfl
    rw [h3, h2] at h
    simp at h

theorem Game.dealLoop_length : ∀ (ps qs : List Player) (d d2 : Blackjack.Deck),
    Game.dealLoop ps d = .ok (qs, d2) → d2.Cards.length ≤ d.Cards.length := by
  intro ps
  induction ps with
  | nil =>
    intro qs d d2 h
    simp only [Game.dealLoop, Except.ok.injEq, Prod.mk.injEq] at h
    rw [← h.2]
  | cons p ps ih =>
    intro qs d d2 h
    unfold Game.dealLoop at h
    rcases hI : p.InitialHand d 2 with ⟨err, q, d1⟩
    rw [hI] at h
    cases err with
    | some e => simp at h
    | none =>
      simp only at h
      obtain ⟨_, _, hd1⟩ := Player.InitialHand_two p q d d1 hI
      cases hL : Game.dealLoop ps d1 with
      | error e => rw [hL] at h; simp at h
      | ok v =>
        obtain ⟨qs2, d3⟩ := v
        rw [hL] at h
        simp only [Except.ok.injEq, Prod.mk.injEq] at h
        have := ih qs2 d1 d3 hL
        rw [← h.2]
        rw [hd1] at this
        simp only [List.length_drop] at this
        omega

theorem Game.Round_length (g g2 : Game) (playerIdx : Int) (inputs rest : List String)
    (h : g.Round playerIdx inputs = .ok (g2, rest)) :
    g2.Deck.Cards.length ≤ g.Deck.Cards.length := by
  unfold Game.Round at h
  split_ifs at h with hneg
  · rcases Game.dealerLoop_spec g.Deck.Cards g.Dealer with ⟨k, hk, _, _, heq⟩ | ⟨_, heq⟩
    · rw [heq] at h
      simp only [Except.ok.injEq, Prod.mk.injEq] at h
      rw [← h.1]
      simp
    · rw [heq] at h
      simp at h
  · cases hp : g.Players[playerIdx.toNat]? with
    | none => rw [hp] at h; simp at h
    | some p =>
      cases hd : g.Dealer.Hand[1]? with
      | none => rw [hp, hd] at h; simp at h
      | some c =>
        rw [hp, hd] at h
        simp only at h
        cases hL : Game.playerLoop p g.Deck.Cards inputs with
        | error e => rw [hL] at h; simp at h
        | ok v =>
          obtain ⟨q, d, rest1⟩ := v
          rw [hL] at h
          simp only [Except.ok.injEq, Prod.mk.injEq] at h
          obtain ⟨k, used, hk, _, _, hdd, _, _⟩ :=
            Game.playerLoop_spec g.Deck.Cards p inputs q d rest1 hL
          rw [← h.1, hdd]
          simp

theorem Game.turnsLoop_length : ∀ (idxs : List Nat) (g g1 : Game) (inputs inputs1 : List String)
    (evs : List Event),
    Game.turnsLoop idxs g inputs = (.ok (g1, inputs1), evs) →
    g1.Deck.Cards.length ≤ g.Deck.Cards.length := by
  intro idxs
  induction idxs with
  | nil =>
    intro g g1 inputs inputs1 evs h
    simp only [Game.turnsLoop, Prod.mk.injEq, Except.ok.injEq] at h
    rw [← h.1.1]
  | cons idx idxs ih =>
    intro g g1 inputs inputs1 evs h
    unfold Game.turnsLoop at h
    cases hp : g.Players[idx]? with
    | none => rw [hp] at h; simp at h
    | some p =>
      rw [hp] at h
      simp only at h
      split_ifs at h with hbj
      · exact ih g g1 inputs inputs1 evs h
      · cases hR : g.Round (idx : Int) inputs with
        | error e => rw [hR] at h; simp at h
        | ok v =>
          obtain ⟨g2, rest⟩ := v
          rw [hR] at h
          simp only [Prod.mk.injEq] at h
          have h1 := Game.Round_length g g2 idx inputs rest hR
          have h2 := ih g2 g1 rest inputs1 (Game.turnsLoop idxs g2 rest).2
            (Prod.ext h.1 rfl)
          omega

theorem Game.finishRound_fuel (again : Game → Nat → List String → Ending × List Event)
    (bound : Nat)
    (hagain : ∀ g pos inputs, g.Deck.Cards.length ≤ bound → (again g pos inputs).1 ≠ .outOfFuel)
    (g : Game) (pos : Nat) (inputs : List String) (hg : g.Deck.Cards.length ≤ bound) :
    (Game.finishRound again g pos inputs).1 ≠ .outOfFuel := by
  unfold Game.finishRound
  rcases ht : Game.turnsLoop (List.range g.Players.length) g inputs with ⟨r, evs⟩
  cases r with
  | error e => simp
  | ok v =>
    obtain ⟨g1, inputs1⟩ := v
    have h1 := Game.turnsLoop_length _ g g1 inputs inputs1 evs ht
    simp only
    cases hR : g1.Round (-1) inputs1 with
    | error e => simp
    | ok w =>
      obtain ⟨g3, inputs3⟩ := w
      have h2 := Game.Round_length g1 g3 (-1) inputs1 inputs3 hR
      simp only
      cases Game.Continue inputs3 with
      | panic msg => simp
      | exit => simp
      | returned keep inputs4 =>
        simp only
        split_ifs
        · exact hagain _ _ _ (by
            show g3.Deck.Cards.length ≤ bound
            omega)
        · simp

theorem Game.beginLoop_fuel (rnd : Nat → Nat) : ∀ (fuel : Nat) (g : Game) (pos : Nat)
    (inputs : List String), g.Deck.Cards.length < fuel →
    (Game.beginLoop rnd fuel g pos inputs).1 ≠ .outOfFuel := by
  intro fuel
  induction fuel with
  | zero => intro g pos inputs h; omega
  | succ fuel ih =>
    intro g pos inputs hlen
    unfold Game.beginLoop
    obtain ⟨res, hres, hperm⟩ := Blackjack.Deck.shuffle_fold (fun k => rnd (pos + k))
      g.Deck.Cards.length (List.range (g.Deck.Cards.length - 1)) g.Deck.Cards rfl (fun i hi => by
        have := List.mem_range.1 hi
        omega)
    rw [Blackjack.Deck.Shuffle_eq_fold (fun k => rnd (pos + k)) g.Deck res hres]
    simp only
    cases hb : Game.bidLoop g.Players inputs with
    | error e => simp
    | ok v =>
      obtain ⟨players, inputs1⟩ := v
      simp only
      cases hdl : Game.dealLoop players { Cards := res } with
      | error e => simp
      | ok w =>
        obtain ⟨players2, deck2⟩ := w
        have hl2 := Game.dealLoop_length players players2 _ deck2 hdl
        simp only
        rcases hdd : g.Dealer.InitialHand deck2 2 with ⟨err, dealer, deck3⟩
        cases err with
        | some e => simp
        | none =>
          obtain ⟨hl3, _, hd3⟩ := Player.InitialHand_two g.Dealer dealer deck2 deck3 hdd
          have hl4 : deck3.Cards.length + 2 ≤ g.Deck.Cards.length := by
            have := hperm.length_eq
            rw [hd3]
            simp only [List.length_drop]
            simp only at hl2
            omega
          have hfin := Game.finishRound_fuel (Game.beginLoop rnd fuel) deck3.Cards.length
            (fun g2 pos2 inputs2 h2 => ih g2 pos2 inputs2 (by omega))
          simp only
          split_ifs with hbj
          · cases Game.Continue inputs1 with
            | panic msg => simp
            | exit => simp
            | returned keep inputs3 =>
              simp only
              split_ifs
              · rcases hr : Game.beginLoop rnd fuel
                  (Game.Payout { Deck := deck3, Dealer := dealer, Players := players2 })
                  (pos + (g.Deck.Cards.length - 1)) inputs3 with ⟨e, evs⟩
                cases e with
                | returned g4 pos4 inputs4 =>
                  exact absurd (congrArg Prod.fst hr)
                    (Game.beginLoop_not_returned rnd _ _ _ _ _ _ _)
                | exited => simp
                | panicked m => simp
                | outOfFuel =>
                  exact absurd (congrArg Prod.fst hr) (ih _ _ _ (by
                    show deck3.Cards.length < fuel
                    omega))
              · exact hfin _ _ _ (le_refl _)
          · exact hfin _ _ _ (le_refl _)

/-- A run of `Game.Begin` ends with the process exiting or panicking: the call never
returns to its caller and the recursion bound is never reached. -/
theorem Game.Begin_ends (g : Game) (rnd : Nat → Nat) (inputs : List String) :
    (Game.Begin g rnd inputs).1 = .exited ∨ ∃ msg, (Game.Begin g rnd inputs).1 = .panicked msg := by
  have h1 := Game.beginLoop_fuel rnd (g.Deck.Cards.length + 1) g 0 inputs (by omega)
  have h2 := Game.beginLoop_not_returned rnd (g.Deck.Cards.length + 1) g 0 inputs
  unfold Game.Begin
  cases he : (Game.beginLoop rnd (g.Deck.Cards.length + 1) g 0 inputs).1 with
  | exited => exact Or.inl rfl
  | panicked m => exact Or.inr ⟨m, rfl⟩
  | returned g2 pos2 inputs2 => exact absurd he (h2 _ _ _)
  | outOfFuel => exact absurd he h1

theorem Game.dealLoop_hands : ∀ (ps qs : List Player) (d d2 : Blackjack.Deck),
    Game.dealLoop ps d = .ok (qs, d2) → ∀ q ∈ qs, q.Hand.length = 2 := by
  intro ps
  induction ps with
  | nil =>
    intro qs d d2 h q hq
    simp only [Game.dealLoop, Except.ok.injEq, Prod.mk.injEq] at h
    rw [← h.1] at hq
    cases hq
  | cons p ps ih =>
    intro qs d d2 h q hq
    unfold Game.dealLoop at h
    rcases hI : p.InitialHand d 2 with ⟨err, q1, d1⟩
    rw [hI] at h
    cases err with
    | some e => simp at h
    | none =>
      simp only at h
      obtain ⟨hlen, hq1, _⟩ := Player.InitialHand_two p q1 d d1 hI
      cases hL : Game.dealLoop ps d1 with
      | error e => rw [hL] at h; simp at h
      | ok v =>
        obtain ⟨qs2, d3⟩ := v
        rw [hL] at h
        simp only [Except.ok.injEq, Prod.mk.injEq] at h
        rw [← h.1] at hq
        rcases List.mem_cons.1 hq with hq | hq
        · rw [hq, hq1]
          simp only [List.length_take]
          omega
        · exact ih qs2 d1 d3 hL q hq

/-! ## Dealer blackjack -/

/-- C17: a round in which the dealer's initial two-card hand is a blackjack (the shuffle, the
bids and the deal having succeeded). `Game.Begin` then does exactly this: the payout, once,
and the continue question; no player turn and no dealer turn is run and no card is drawn, so
the next round starts from the paid-out game with the deck as the deal left it, or the
process ends. The code after the dealer-blackjack block is not reached: `Continue` returns
only true, and no call of `Begin` ever returns. -/
theorem Game.Begin_dealer_blackjack (rnd : Nat → Nat) (fuel : Nat) (g : Game) (pos : Nat)
    (inputs inputs1 : List String) (deck deck2 deck3 : Blackjack.Deck)
    (players players2 : List Player) (dealer : Player)
    (hs : Blackjack.Deck.Shuffle (fun k => rnd (pos + k)) g.Deck = .ok deck)
    (hb : Game.bidLoop g.Players inputs = .ok (players, inputs1))
    (hdl : Game.dealLoop players deck = .ok (players2, deck2))
    (hdd : g.Dealer.InitialHand deck2 2 = (none, dealer, deck3))
    (hbj : dealer.IsBlackjack = true) :
    (Game.beginLoop rnd (fuel + 1) g pos inputs =
      match Game.Continue inputs1 with
      | .panic msg =>
        (.panicked msg,
          [Event.shuffled g.Deck deck, Event.bids { g with Deck := deck, Players := players },
            Event.dealt { Deck := deck3, Dealer := dealer, Players := players2 },
            Event.payout { Deck := deck3, Dealer := dealer, Players := players2 }
              (Game.Payout { Deck := deck3, Dealer := dealer, Players := players2 })])
      | .exit =>
        (.exited,
          [Event.shuffled g.Deck deck, Event.bids { g with Deck := deck, Players := players },
            Event.dealt { Deck := deck3, Dealer := dealer, Players := players2 },
            Event.payout { Deck := deck3, Dealer := dealer, Players := players2 }
              (Game.Payout { Deck := deck3, Dealer := dealer, Players := players2 })])
      | .returned _ inputs2 =>
        ((Game.beginLoop rnd fuel
            (Game.Payout { Deck := deck3, Dealer := dealer, Players := players2 })
            (pos + (g.Deck.Cards.length - 1)) inputs2).1,
          [Event.shuffled g.Deck deck, Event.bids { g with Deck := deck, Players := players },
            Event.dealt { Deck := deck3, Dealer := dealer, Players := players2 },
            Event.payout { Deck := deck3, Dealer := dealer, Players := players2 }
              (Game.Payout { Deck := deck3, Dealer := dealer, Players := players2 }),
            Event.newRound] ++
          (Game.beginLoop rnd fuel
            (Game.Payout { Deck := deck3, Dealer := dealer, Players := players2 })
            (pos + (g.Deck.Cards.length - 1)) inputs2).2)) ∧
    ((Game.Payout { Deck := deck3, Dealer := dealer, Players := players2 }).Deck = deck3 ∧
      (Game.Payout { Deck := deck3, Dealer := dealer, Players := players2 }).Dealer = dealer ∧
      (Game.Payout { Deck := deck3, Dealer := dealer, Players := players2 }).Players =
        players2.map (fun p => (Game.payoutPlayer dealer p).2) ∧
      dealer.Hand = deck2.Cards.take 2 ∧ deck3.Cards = deck2.Cards.drop 2 ∧
      ∀ p ∈ players2, (Game.payoutPlayer dealer p).2.Hand = p.Hand ∧ p.Hand.length = 2) ∧
    (∀ keep rest, Game.Continue inputs1 = .returned keep rest → keep = true) ∧
    (∀ fuel2 g2 pos2 inputs2 g3 pos3 inputs3,
      (Game.beginLoop rnd fuel2 g2 pos2 inputs2).1 ≠ .returned g3 pos3 inputs3) := by
  refine ⟨Game.beginLoop_blackjack rnd fuel g pos inputs inputs1 deck deck2 deck3 players players2
    dealer hs hb hdl hdd hbj, ⟨rfl, rfl, rfl, ?_, ?_, ?_⟩, Game.Continue_keep inputs1,
    Game.beginLoop_not_returned rnd⟩
  · obtain ⟨_, h2, _⟩ := Player.InitialHand_two g.Dealer dealer deck2 deck3 hdd
    rw [h2]
  · obtain ⟨_, _, h3⟩ := Player.InitialHand_two g.Dealer dealer deck2 deck3 hdd
    rw [h3]
  · intro p hp
    refine ⟨(Game.payoutPlayer_frame dealer p).1, ?_⟩
    exact Game.dealLoop_hands players players2 deck deck2 hdl p hp

/-- Witness for C17: on `blackjackTable` the dealer is dealt {A,K}; the player bids 100 and
answers n to the continue question. The round is the shuffle, the bids, the deal and one
payout, and the process exits. -/
theorem Game.Begin_dealer_blackjack_witness :
    Game.beginLoop (fun _ => 0) 1 blackjackTable 0 ["100", "n"] =
      (.exited,
        [Event.shuffled blackjackTable.Deck blackjackShuffled,
          Event.bids { blackjackTable with
            Deck := blackjackShuffled, Players := [blackjackBidder] },
          Event.dealt blackjackDealt,
          Event.payout blackjackDealt (Game.Payout blackjackDealt)]) :=
  (Game.Begin_dealer_blackjack (fun _ => 0) 0 blackjackTable 0 ["100", "n"] ["n"]
    blackjackShuffled
    { Cards := blackjackShuffled.Cards.drop 2 }
    blackjackDealt.Deck [blackjackBidder] blackjackDealt.Players blackjackDealt.Dealer
    rfl
    (by
      have h := Player.Bid_accept { Hand := [], Bet := 0, Wallet := 1000 } "100" "100"
        ["n"] 100 (by decide) (by decide) (by decide) (by norm_num)
      simp only [blackjackTable, Game.bidLoop, h, blackjackBidder])
    rfl rfl (by decide)).1

/-! ## Shuffling between rounds -/

theorem Game.beginLoop_bid_panic (rnd : Nat → Nat) (fuel : Nat) (g : Game) (pos : Nat)
    (inputs : List String) (deck : Blackjack.Deck) (e : String)
    (hs : Blackjack.Deck.Shuffle (fun k => rnd (pos + k)) g.Deck = .ok deck)
    (hb : Game.bidLoop g.Players inputs = .error e) :
    Game.beginLoop rnd (fuel + 1) g pos inputs = (.panicked e, [Event.shuffled g.Deck deck]) := by
  simp only [Game.beginLoop, hs, hb]

theorem set_set_adjacent : ∀ (l1 l2 : List Card) (x y : Card),
    ((l1 ++ x :: y :: l2).set l1.length y).set (l1.length + 1) x = l1 ++ y :: x :: l2 := by
  intro l1
  induction l1 with
  | nil => intro l2 x y; rfl
  | cons z zs ih =>
    intro l2 x y
    simp only [List.cons_append, List.length_cons, List.set_cons_succ, ih]

/-- With a random source that is constantly 0 every swap partner is the next position, so
the pass of `Deck.Shuffle` carries the first card to the end. -/
theorem Deck.shuffle_rotate_prefix (rnd : Nat → Nat) (hrnd : ∀ k, rnd k = 0) (c : Card)
    (cs : List Card) :
    ∀ m, m ≤ cs.length →
    (List.range m).foldlM (Deck.shuffleStep rnd (((c :: cs).length : Int) - 1)) (c :: cs) =
      .ok (cs.take m ++ c :: cs.drop m) := by
  intro m
  induction m with
  | zero => intro _; rfl
  | succ m ih =>
    intro hm
    have hlt : m < cs.length := by omega
    have hcur : (cs.take m ++ c :: cs.drop m).length = (c :: cs).length := by
      simp only [List.length_append, List.length_take, List.length_cons, List.length_drop]
      omega
    obtain ⟨a, b, ha, hb, hstep⟩ := Deck.shuffleStep_eq rnd (c :: cs).length
      (cs.take m ++ c :: cs.drop m) m hcur (by simp only [List.length_cons]; omega)
    have hj : rnd m % ((c :: cs).length - 1 - m) + m + 1 = m + 1 := by
      rw [hrnd m, Nat.zero_mod]
      omega
    rw [hj] at hb hstep
    have hdrop : cs.drop m = cs[m] :: cs.drop (m + 1) := List.drop_eq_getElem_cons hlt
    have htl : (cs.take m).length = m := by
      rw [List.length_take]
      omega
    have ha2 : a = c := by
      rw [List.getElem?_append_right (by omega), htl, Nat.sub_self] at ha
      simpa using ha.symm
    have hb2 : b = cs[m] := by
      rw [List.getElem?_append_right (by omega), htl] at hb
      have : m + 1 - m = 1 := by omega
      rw [this] at hb
      have hb3 : cs[m]? = some b := by simpa using hb
      rw [List.getElem?_eq_getElem hlt] at hb3
      exact (Option.some.inj hb3).symm
    rw [List.range_succ, List.foldlM_append, ih (by omega)]
    simp only [bind, Except.bind, List.foldlM_cons, List.foldlM_nil, hstep]
    have hswap := set_set_adjacent (cs.take m) (cs.drop (m + 1)) c cs[m]
    rw [htl] at hswap
    rw [ha2, hb2, hdrop, hswap]
    show Except.ok _ = Except.ok _
    congr 1
    rw [List.take_succ, List.getElem?_eq_getElem hlt]
    simp only [Option.toList, List.append_assoc, List.singleton_append]

theorem Deck.Shuffle_rotate (rnd : Nat → Nat) (hrnd : ∀ k, rnd k = 0) (d : Deck) (c : Card)
    (cs : List Card) (hd : d.Cards = c :: cs) :
    Deck.Shuffle rnd d = .ok { Cards := cs ++ [c] } := by
  have h := Deck.shuffle_rotate_prefix rnd hrnd c cs cs.length (le_refl _)
  rw [List.take_length, List.drop_length] at h
  apply Deck.Shuffle_eq_fold
  rw [hd]
  simpa using h

theorem Game.Begin_round_one :
    Game.Begin (Game.Configure newGame 1) (fun _ => 0) ["100", "s", "y"] =
      (.panicked "Scanln failed",
        [Event.shuffled (Blackjack.Deck.Initialize { Cards := [] }) roundOneDeck,
          Event.bids { Game.Configure newGame 1 with
            Deck := roundOneDeck, Players := [roundOneBidder] },
          Event.dealt roundOneDealt, Event.playerTurn 0 roundOneDealt,
          Event.dealerTurn roundOneDone, Event.payout roundOneDone roundOneDone.Payout,
          Event.newRound, Event.shuffled roundOneDone.Deck roundTwoDeck]) := by
  have hs : Blackjack.Deck.Shuffle (fun k => (fun _ => 0) (0 + k)) (Game.Configure newGame 1).Deck =
      .ok roundOneDeck :=
    Blackjack.Deck.Shuffle_rotate _ (fun _ => rfl) _ { Rank := "A", Suit := "Hearts" }
      ((Blackjack.Deck.Initialize { Cards := [] }).Cards.drop 1) rfl
  have hb : Game.bidLoop (Game.Configure newGame 1).Players ["100", "s", "y"] =
      .ok ([roundOneBidder], ["s", "y"]) := by
    have h := Player.Bid_accept { Hand := [], Bet := 0, Wallet := 0 + 1000 } "100" "100"
      ["s", "y"] 100 (by decide) (by decide) (by decide) (by norm_num)
    have hp : (Game.Configure newGame 1).Players = [{ Hand := [], Bet := 0, Wallet := 0 + 1000 }] :=
      rfl
    simp only [hp, Game.bidLoop, h, roundOneBidder]
  have h1 := Game.beginLoop_normal (fun _ => 0) 52 (Game.Configure newGame 1) 0
    ["100", "s", "y"] ["s", "y"] roundOneDeck { Cards := roundOneDeck.Cards.drop 2 }
    roundOneDealt.Deck [roundOneBidder] roundOneDealt.Players roundOneDealt.Dealer
    hs hb rfl rfl (by decide)
  have h2 := Game.finishRound_eq (Game.beginLoop (fun _ => 0) 52) roundOneDealt roundOneDealt
    roundOneDone (0 + ((Game.Configure newGame 1).Deck.Cards.length - 1)) ["s", "y"] ["y"] ["y"]
    [Event.playerTurn 0 roundOneDealt] rfl rfl
  have hs2 : Blackjack.Deck.Shuffle
      (fun k => (fun _ => 0) (0 + ((Game.Configure newGame 1).Deck.Cards.length - 1) + k))
      roundOneDone.Payout.Deck = .ok roundTwoDeck :=
    Blackjack.Deck.Shuffle_rotate _ (fun _ => rfl) _ { Rank := "8", Suit := "Hearts" }
      (roundOneDeck.Cards.drop 7) rfl
  have h3 := Game.beginLoop_bid_panic (fun _ => 0) 51 roundOneDone.Payout
    (0 + ((Game.Configure newGame 1).Deck.Cards.length - 1)) [] roundTwoDeck "Scanln failed"
    hs2 rfl
  have hc : Game.Continue ["y"] = .returned true [] := rfl
  rw [hc] at h2
  simp only at h2
  rw [h3] at h2
  have h4 : Game.Begin (Game.Configure newGame 1) (fun _ => 0) ["100", "s", "y"] =
      Game.beginLoop (fun _ => 0) (52 + 1) (Game.Configure newGame 1) 0 ["100", "s", "y"] := rfl
  rw [h4, h1]
  have h5 : Game.mk roundOneDealt.Deck roundOneDealt.Dealer roundOneDealt.Players =
      roundOneDealt := rfl
  rw [h5, h2]
  rfl

/-! ## Bets and wallets -/

theorem Player.Bid_result (p : Player) : ∀ (inputs : List String) (q : Player) (rest : List String),
    p.Bid inputs = .ok (q, rest) →
    ∃ a : Int, 0 < a ∧ a ≤ int64 p.Wallet ∧
      q = { p with Bet := a, Wallet := p.Wallet - (a : ℚ) } := by
  intro inputs
  induction inputs with
  | nil => intro q rest h; cases h
  | cons line tl ih =>
    intro q rest h
    rw [Player.Bid_cons] at h
    cases hs : Scanln line with
    | none =>
      rw [hs] at h
      cases h
    | some prompt =>
      rw [hs] at h
      simp only at h
      cases hp : ParseInt prompt with
      | none =>
        rw [hp] at h
        exact ih q rest h
      | some a =>
        rw [hp] at h
        simp only at h
        split_ifs at h with hc
        · simp only [Except.ok.injEq, Prod.mk.injEq] at h
          exact ⟨a, hc.1, hc.2, h.1.symm⟩
        · exact ih q rest h

theorem Player.initialHandLoop_frame : ∀ (n : Nat) (p : Player) (d : Deck),
    (Player.initialHandLoop n p d).2.1.Bet = p.Bet ∧
      (Player.initialHandLoop n p d).2.1.Wallet = p.Wallet := by
  intro n
  induction n with
  | zero => intro p d; exact ⟨rfl, rfl⟩
  | succ n ih =>
    intro p d
    rcases d with ⟨cards⟩
    cases cards with
    | nil => exact ⟨rfl, rfl⟩
    | cons c rest =>
      simp only [Player.initialHandLoop, Deck.Draw]
      exact ih (p.Add c) { Cards := rest }

theorem Player.InitialHand_frame (p : Player) (d : Deck) (n : Int) :
    (p.InitialHand d n).2.1.Bet = p.Bet ∧ (p.InitialHand d n).2.1.Wallet = p.Wallet :=
  Player.initialHandLoop_frame n.toNat { p with Hand := [] } d

theorem Game.Round_frame (g g2 : Game) (playerIdx : Int) (inputs rest : List String)
    (h : g.Round playerIdx inputs = .ok (g2, rest)) :
    g2.Players.map (fun p => (p.Bet, p.Wallet)) = g.Players.map (fun p => (p.Bet, p.Wallet)) := by
  unfold Game.Round at h
  split_ifs at h with hneg
  · cases hL : Game.dealerLoop g.Dealer g.Deck.Cards with
    | error e => rw [hL] at h; simp at h
    | ok v =>
      rw [hL] at h
      simp only [Except.ok.injEq, Prod.mk.injEq] at h
      rw [← h.1]
  · cases hp : g.Players[playerIdx.toNat]? with
    | none => rw [hp] at h; simp at h
    | some p =>
      cases hd : g.Dealer.Hand[1]? with
      | none => rw [hp, hd] at h; simp at h
      | some c =>
        rw [hp, hd] at h
        simp only at h
        cases hL : Game.playerLoop p g.Deck.Cards inputs with
        | error e => rw [hL] at h; simp at h
        | ok v =>
          obtain ⟨q, d, rest1⟩ := v
          rw [hL] at h
          simp only [Except.ok.injEq, Prod.mk.injEq] at h
          obtain ⟨k, used, _, _, hq, _, _, _⟩ :=
            Game.playerLoop_spec g.Deck.Cards p inputs q d rest1 hL
          rw [← h.1, hq]
          simp only [List.map_set]
          exact set_of_getElem? _ _ _ (by simp [hp])

theorem Game.payoutPlayer_nonneg (dealer p : Player) (hb : 0 ≤ p.Bet) :
    p.Wallet ≤ (Game.payoutPlayer dealer p).2.Wallet := by
  have hq : (0 : ℚ) ≤ (p.Bet : ℚ) := by exact_mod_cast hb
  rw [Game.payoutPlayer_wallet]
  cases (Game.payoutPlayer dealer p).1 <;> simp only <;> first | linarith | norm_num <;> linarith

theorem Game.configureLoop_mem : ∀ (n : Nat) (ps : List Player) (p : Player),
    p ∈ Game.configureLoop n ps → p ∈ ps ∨ p = { Hand := [], Bet := 0, Wallet := 0 + 1000 } := by
  intro n
  induction n with
  | zero => intro ps p h; exact Or.inl h
  | succ n ih =>
    intro ps p h
    rcases ih _ p h with h1 | h1
    · rcases List.mem_append.1 h1 with h2 | h2
      · exact Or.inl h2
      · exact Or.inr (by simpa using h2)
    · exact Or.inr h1

theorem Reachable.invariant (g : Game) (h : Reachable g) :
    ∀ p ∈ g.Players, 0 ≤ p.Wallet ∧ 0 ≤ p.Bet := by
  induction h with
  | configure n =>
    intro p hp
    rcases Game.configureLoop_mem n.toNat newGame.Players p hp with h1 | h1
    · cases h1
    · rw [h1]
      exact ⟨by norm_num, le_refl _⟩
  | shuffle g rnd d _ _ ih => exact ih
  | bid g i p q inputs rest _ hp hbid ih =>
    intro x hx
    rcases List.mem_or_eq_of_mem_set hx with h1 | h1
    · exact ih x h1
    · obtain ⟨a, ha0, hale, hq⟩ := Player.Bid_result p inputs q rest hbid
      have hpw := (ih p (List.getElem?_mem hp)).1
      have hle : (a : ℚ) ≤ p.Wallet := (int64_le p.Wallet hpw a).1 hale
      rw [h1, hq]
      exact ⟨by simpa using hle, le_of_lt ha0⟩
  | playerHand g i p n _ hp ih =>
    intro x hx
    rcases List.mem_or_eq_of_mem_set hx with h1 | h1
    · exact ih x h1
    · obtain ⟨hb, hw⟩ := Player.InitialHand_frame p g.Deck n
      have := ih p (List.getElem?_mem hp)
      rw [h1, hb, hw]
      exact this
  | dealerHand g n _ ih => exact ih
  | round g g2 playerIdx inputs rest _ hr ih =>
    intro x hx
    have hf := Game.Round_frame g g2 playerIdx inputs rest hr
    have hx2 : (x.Bet, x.Wallet) ∈ g2.Players.map (fun p => (p.Bet, p.Wallet)) :=
      List.mem_map.2 ⟨x, hx, rfl⟩
    rw [hf] at hx2
    obtain ⟨y, hy, hxy⟩ := List.mem_map.1 hx2
    have := ih y hy
    simp only [Prod.mk.injEq] at hxy
    rw [← hxy.1, ← hxy.2]
    exact this
  | payout g _ ih =>
    intro x hx
    obtain ⟨y, hy, hxy⟩ := List.mem_map.1 hx
    obtain ⟨hw, hb⟩ := ih y hy
    rw [← hxy]
    exact ⟨le_trans hw (Game.payoutPlayer_nonneg g.Dealer y hb),
      by rw [(Game.payoutPlayer_frame g.Dealer y).2]; exact hb⟩

/-- C11: every player's wallet is non-negative in every game reachable from
`Game.Configure` (wallet 1000) by any sequence of shuffles, bids, initial hands, player and
dealer turns and payouts: a bid never takes the wallet below zero, and the payout and
`Balance` only add a non-negative amount (the bet is never negative). -/
theorem Game.wallet_nonneg (g : Game) (h : Reachable g) :
    (∀ p ∈ g.Players, 0 ≤ p.Wallet) ∧ (∀ p ∈ g.Players, 0 ≤ p.Bet) ∧
    (∀ n : Int, ∀ p ∈ (Game.Configure newGame n).Players, p.Wallet = 1000) ∧
    (∀ (p q : Player) (inputs rest : List String), 0 ≤ p.Wallet →
      p.Bid inputs = .ok (q, rest) → 0 ≤ q.Wallet ∧ q.Wallet = p.Wallet - (q.Bet : ℚ) ∧ 0 < q.Bet) ∧
    (∀ dealer p : Player, 0 ≤ p.Bet → p.Wallet ≤ (Game.payoutPlayer dealer p).2.Wallet) ∧
    (∀ (p : Player) (earnings : ℚ) (isPush : Bool), 0 ≤ earnings →
      p.Wallet ≤ (p.Balance earnings isPush).Wallet) := by
  refine ⟨fun p hp => (Reachable.invariant g h p hp).1,
    fun p hp => (Reachable.invariant g h p hp).2, ?_, ?_, Game.payoutPlayer_nonneg, ?_⟩
  · intro n p hp
    rcases Game.configureLoop_mem n.toNat newGame.Players p hp with h1 | h1
    · cases h1
    · rw [h1]
      norm_num
  · intro p q inputs rest hw hbid
    obtain ⟨a, ha0, hale, hq⟩ := Player.Bid_result p inputs q rest hbid
    have hle : (a : ℚ) ≤ p.Wallet := (int64_le p.Wallet hw a).1 hale
    rw [hq]
    exact ⟨by simpa using hle, rfl, ha0⟩
  · intro p earnings isPush he
    simp only [Player.Balance]
    linarith

/-- Witness for C11: the game after `Configure` for two players, a shuffle and a payout. -/
theorem Game.wallet_nonneg_witness :
    Reachable (Game.Payout { Game.Configure newGame 2 with Deck := roundOneDeck }) ∧
    ∀ p ∈ (Game.Payout { Game.Configure newGame 2 with Deck := roundOneDeck }).Players,
      0 ≤ p.Wallet :=
  ⟨Reachable.payout _ (Reachable.shuffle _ (fun _ => 0) roundOneDeck (Reachable.configure 2)
      (Deck.Shuffle_rotate _ (fun _ => rfl) _ { Rank := "A", Suit := "Hearts" }
        ((Deck.Initialize { Cards := [] }).Cards.drop 1) rfl)),
    (Game.wallet_nonneg _
      (Reachable.payout _ (Reachable.shuffle _ (fun _ => 0) roundOneDeck (Reachable.configure 2)
        (Deck.Shuffle_rotate _ (fun _ => rfl) _ { Rank := "A", Suit := "Hearts" }
          ((Deck.Initialize { Cards := [] }).Cards.drop 1) rfl)))).1⟩

theorem Deck.Shuffle_ne (rnd : Nat → Nat) (d res : Deck) (hn : 2 ≤ d.Cards.length)
    (hnd : d.Cards.Nodup) (h : Deck.Shuffle rnd d = .ok res) : res.Cards ≠ d.Cards := by
  intro heq
  obtain ⟨hhead, hj⟩ := Deck.Shuffle_head rnd d res hn h
  rw [heq] at hhead
  have := nodup_getElem?_inj d.Cards hnd 0 _ (by omega) hhead
  omega

theorem Game.bidLoop_bets : ∀ (ps qs : List Player) (inputs rest : List String),
    Game.bidLoop ps inputs = .ok (qs, rest) → ∀ q ∈ qs, 0 < q.Bet := by
  intro ps
  induction ps with
  | nil =>
    intro qs inputs rest h q hq
    simp only [Game.bidLoop, Except.ok.injEq, Prod.mk.injEq] at h
    rw [← h.1] at hq
    cases hq
  | cons p ps ih =>
    intro qs inputs rest h q hq
    unfold Game.bidLoop at h
    cases hB : p.Bid inputs with
    | error e => rw [hB] at h; simp at h
    | ok v =>
      obtain ⟨q1, rest1⟩ := v
      rw [hB] at h
      simp only at h
      cases hL : Game.bidLoop ps rest1 with
      | error e => rw [hL] at h; simp at h
      | ok w =>
        obtain ⟨qs2, rest2⟩ := w
        rw [hL] at h
        simp only [Except.ok.injEq, Prod.mk.injEq] at h
        rw [← h.1] at hq
        rcases List.mem_cons.1 hq with hq | hq
        · obtain ⟨a, ha0, _, hq1⟩ := Player.Bid_result p inputs q1 rest1 hB
          rw [hq, hq1]
          exact ha0
        · exact ih qs2 rest1 rest2 hL q hq

/-- C15 (as stated, refuted): in the game started with one player, a bid of 100, a stand and
a yes to the continue question, the payout of round one is followed by the next round, and
the player's bet after that payout is still 100, not 0. -/
theorem Game.Payout_bet_counterexample :
    [Event.payout roundOneDone roundOneDone.Payout, Event.newRound] <:+:
      (Game.Begin (Game.Configure newGame 1) (fun _ => 0) ["100", "s", "y"]).2 ∧
    roundOneDone.Payout.Players.map (fun p => p.Bet) = [100] ∧
    ¬ ∀ p ∈ roundOneDone.Payout.Players, p.Bet = 0 := by
  have hbet : roundOneDone.Payout.Players.map (fun p => p.Bet) = [100] := by
    simp only [Game.Payout, roundOneDone, List.map, (Game.payoutPlayer_frame _ _).2]
    rfl
  refine ⟨?_, hbet, ?_⟩
  · rw [Game.Begin_round_one]
    exact ⟨[Event.shuffled (Blackjack.Deck.Initialize { Cards := [] }) roundOneDeck,
      Event.bids { Game.Configure newGame 1 with Deck := roundOneDeck, Players := [roundOneBidder] },
      Event.dealt roundOneDealt, Event.playerTurn 0 roundOneDealt, Event.dealerTurn roundOneDone],
      [Event.shuffled roundOneDone.Deck roundTwoDeck], rfl⟩
  · intro hall
    have h2 : ∀ b ∈ roundOneDone.Payout.Players.map (fun p => p.Bet), b = 0 := by
      intro b hb
      obtain ⟨p, hp, rfl⟩ := List.mem_map.1 hb
      exact hall p hp
    rw [hbet] at h2
    exact absurd (h2 100 (by simp)) (by decide)

/-- C15 (amended): `Game.Payout` and `Player.Balance` leave every player's bet unchanged, and
so do the initial hands and the player and dealer turns; only `Player.Bid` assigns it, always
a positive amount. So after the payout of a round each bet still is the positive amount bid
in that round, until the next bid overwrites it; a bet is 0 only after `Game.Configure`,
before the first bid. -/
theorem Game.Payout_keeps_bet (g : Game) :
    g.Payout.Players.map (fun p => p.Bet) = g.Players.map (fun p => p.Bet) ∧
    (∀ (p : Player) (earnings : ℚ) (isPush : Bool), (p.Balance earnings isPush).Bet = p.Bet) ∧
    (∀ (p : Player) (d : Blackjack.Deck) (n : Int), (p.InitialHand d n).2.1.Bet = p.Bet) ∧
    (∀ (g2 : Game) (playerIdx : Int) (inputs rest : List String),
      g.Round playerIdx inputs = .ok (g2, rest) →
      g2.Players.map (fun p => p.Bet) = g.Players.map (fun p => p.Bet)) ∧
    (∀ (p q : Player) (inputs rest : List String), p.Bid inputs = .ok (q, rest) → 0 < q.Bet) ∧
    (∀ (qs : List Player) (inputs rest : List String),
      Game.bidLoop g.Players inputs = .ok (qs, rest) →
      ∀ q ∈ (Game.Payout { g with Players := qs }).Players, 0 < q.Bet) ∧
    (∀ n : Int, ∀ p ∈ (Game.Configure newGame n).Players, p.Bet = 0) := by
  refine ⟨?_, fun _ _ _ => rfl, fun p d n => (Player.InitialHand_frame p d n).1, ?_, ?_, ?_, ?_⟩
  · simp only [Game.Payout, List.map_map]
    apply List.map_congr_left
    intro p _
    exact (Game.payoutPlayer_frame g.Dealer p).2
  · intro g2 playerIdx inputs rest h
    have hf := Game.Round_frame g g2 playerIdx inputs rest h
    have := congrArg (List.map Prod.fst) hf
    simpa [List.map_map] using this
  · intro p q inputs rest h
    obtain ⟨a, ha0, _, hq⟩ := Player.Bid_result p inputs q rest h
    rw [hq]
    exact ha0
  · intro qs inputs rest h q hq
    obtain ⟨p, hp, hpq⟩ := List.mem_map.1 hq
    rw [← hpq, (Game.payoutPlayer_frame g.Dealer p).2]
    exact Game.bidLoop_bets g.Players qs inputs rest h p hp
  · intro n p hp
    rcases Game.configureLoop_mem n.toNat newGame.Players p hp with h1 | h1
    · cases h1
    · rw [h1]

/-- Witness for C15 (amended): after bidding on the line 250 the bet is positive. -/
theorem Game.Payout_keeps_bet_witness :
    (handOf []).Bid ["250"] =
      .ok (Player.mk (handOf []).Hand 250 ((handOf []).Wallet - ((250 : Int) : ℚ)), []) ∧
    (0 : Int) < (Player.mk (handOf []).Hand 250 ((handOf []).Wallet - ((250 : Int) : ℚ))).Bet :=
  ⟨Player.Bid_accept (handOf []) "250" "250" [] 250 (by decide) (by decide) (by decide)
      (by norm_num [handOf]),
    (Game.Payout_keeps_bet newGame).2.2.2.2.1 (handOf []) _ ["250"] []
      (Player.Bid_accept (handOf []) "250" "250" [] 250 (by decide) (by decide) (by decide)
        (by norm_num [handOf]))⟩

/-- C16 (as stated, refuted): in the game started with one player, a bid of 100, a stand and
a yes to the continue question (random source constantly 0), round two opens with a shuffle
of the 46 remaining cards that changes their order: 8, 9, 10 of Hearts on top before, 9, 10,
J of Hearts after. -/
theorem Game.Begin_reshuffle_counterexample :
    [Event.payout roundOneDone roundOneDone.Payout, Event.newRound,
        Event.shuffled roundOneDone.Deck roundTwoDeck] <:+:
      (Game.Begin (Game.Configure newGame 1) (fun _ => 0) ["100", "s", "y"]).2 ∧
    roundOneDone.Payout.Deck = roundOneDone.Deck ∧ roundOneDone.Deck.Cards.length = 46 ∧
    roundOneDone.Deck.Cards.take 3 =
      [{ Rank := "8", Suit := "Hearts" }, { Rank := "9", Suit := "Hearts" },
        { Rank := "10", Suit := "Hearts" }] ∧
    roundTwoDeck.Cards.take 3 =
      [{ Rank := "9", Suit := "Hearts" }, { Rank := "10", Suit := "Hearts" },
        { Rank := "J", Suit := "Hearts" }] ∧
    roundTwoDeck.Cards ≠ roundOneDone.Deck.Cards := by
  refine ⟨?_, rfl, by decide, by decide, by decide, by decide⟩
  rw [Game.Begin_round_one]
  exact ⟨[Event.shuffled (Blackjack.Deck.Initialize { Cards := [] }) roundOneDeck,
    Event.bids { Game.Configure newGame 1 with Deck := roundOneDeck, Players := [roundOneBidder] },
    Event.dealt roundOneDealt, Event.playerTurn 0 roundOneDealt, Event.dealerTurn roundOneDone],
    [], rfl⟩

/-- C16 (amended): the deck is shuffled at the start of every round, not only before the
first one. Every call of `Game.Begin` first applies `Deck.Shuffle` to the cards remaining in
the deck, which permutes them and changes their order whenever at least two distinct cards
remain; and the round that follows an affirmative continue decision is such a call, made on
the paid-out game. The deck is never re-initialized. -/
theorem Game.Begin_shuffles (rnd : Nat → Nat) (fuel : Nat) (g : Game) (pos : Nat)
    (inputs : List String) :
    (∃ deck, Blackjack.Deck.Shuffle (fun k => rnd (pos + k)) g.Deck = .ok deck ∧
      deck.Cards.Perm g.Deck.Cards ∧
      (Game.beginLoop rnd (fuel + 1) g pos inputs).2.head? = some (Event.shuffled g.Deck deck) ∧
      (2 ≤ g.Deck.Cards.length → g.Deck.Cards.Nodup → deck.Cards ≠ g.Deck.Cards)) ∧
    (∀ (g1 g2 : Game) (inputs1 inputs2 inputs3 : List String) (evs : List Event) (keep : Bool),
      Game.turnsLoop (List.range g.Players.length) g inputs = (.ok (g1, inputs1), evs) →
      g1.Round (-1) inputs1 = .ok (g2, inputs2) →
      Game.Continue inputs2 = .returned keep inputs3 →
      Game.finishRound (Game.beginLoop rnd fuel) g pos inputs =
        ((Game.beginLoop rnd fuel g2.Payout pos inputs3).1,
          evs ++ [Event.dealerTurn g2, Event.payout g2 g2.Payout, Event.newRound] ++
            (Game.beginLoop rnd fuel g2.Payout pos inputs3).2)) ∧
    g.Payout.Deck = g.Deck ∧
    Game.Begin g rnd inputs = Game.beginLoop rnd (g.Deck.Cards.length + 1) g 0 inputs := by
  refine ⟨?_, ?_, rfl, rfl⟩
  · obtain ⟨deck, hs, hperm, hhead⟩ := Game.beginLoop_head rnd fuel g pos inputs
    exact ⟨deck, hs, hperm, hhead, fun hn hnd =>
      Blackjack.Deck.Shuffle_ne (fun k => rnd (pos + k)) g.Deck deck hn hnd hs⟩
  · intro g1 g2 inputs1 inputs2 inputs3 evs keep ht hd hc
    rw [Game.finishRound_eq (Game.beginLoop rnd fuel) g g1 g2 pos inputs inputs1 inputs2 evs ht hd,
      hc]

/-- Witness for C16 (amended): the first shuffle of a new game changes the order of the 52
cards. -/
theorem Game.Begin_shuffles_witness :
    2 ≤ (Game.Configure newGame 1).Deck.Cards.length ∧
    (Game.Configure newGame 1).Deck.Cards.Nodup ∧
    ∃ deck, Blackjack.Deck.Shuffle (fun k => (fun _ => 0) (0 + k)) (Game.Configure newGame 1).Deck =
        .ok deck ∧
      (Game.beginLoop (fun _ => 0) (52 + 1) (Game.Configure newGame 1) 0 ["100"]).2.head? =
        some (Event.shuffled (Game.Configure newGame 1).Deck deck) ∧
      deck.Cards ≠ (Game.Configure newGame 1).Deck.Cards :=
  ⟨by decide, by decide, by
    obtain ⟨deck, hs, _, hhead, hne⟩ :=
      (Game.Begin_shuffles (fun _ => 0) 52 (Game.Configure newGame 1) 0 ["100"]).1
    exact ⟨deck, hs, hhead, hne (by decide) (by decide)⟩⟩

end Blackjack
